import Mathlib

/-!
Shallow embedding of the cycle-level GPGPU simulator back-end
(`sim/simx/func_unit.cpp` and `sim/simx/types.h`): the ALU / LSU / SFU
functional units and the generic Mux / Switch arbitration fabric.

Conventions of the embedding:
* dynamic bitsets (`BitVector<>`) become `List Bool` of length `NUM_LSU_LANES`;
* `SimPort` input queues become `List` FIFOs (head = front); pushes to output
  ports are recorded as `(item, delay)` pairs appended to a per-port list;
* fatal assertions (`assert`, `std::abort`) become `Option` results (`none`);
* compile-time configuration constants (`NUM_LSU_BLOCKS`, `ISSUE_WIDTH`,
  `NUM_LSU_LANES`, `LATENCY_IMUL`, `XLEN`) are explicit parameters.
-/

set_option maxHeartbeats 1000000

namespace Vortex

/-- `enum class LsuType` from `types.h`. -/
inductive LsuType where
  | LOAD
  | STORE
  | FENCE
deriving DecidableEq, Repr, Inhabited

/-- `enum class AluType` from `types.h`. -/
inductive AluType where
  | ARITH
  | BRANCH
  | SYSCALL
  | IMUL
  | IDIV
deriving DecidableEq, Repr, Inhabited

/-- `enum class SfuType` from `types.h`. -/
inductive SfuType where
  | TMC
  | WSPAWN
  | SPLIT
  | JOIN
  | BAR
  | PRED
  | CSRRW
  | CSRRS
  | CSRRC
  | TEX
  | RASTER
  | OM
  | CMOV
deriving DecidableEq, Repr, Inhabited

/-- An in-flight micro-op descriptor (`instr_trace_t`): the fields of the
trace that the back-end units read.  Class-specific payloads (`LsuTraceData`
per-lane addresses, `SFUTraceData` args, coprocessor unit index) are flattened
into the record. -/
structure Trace where
  uuid : Nat
  cid : Nat
  wid : Nat
  pid : Nat
  tmask : List Bool
  eop : Bool
  fetch_stall : Bool
  lsu_type : LsuType
  alu_type : AluType
  sfu_type : SfuType
  arg1 : Nat
  arg2 : Nat
  unit_idx : Nat
  mem_addrs : List Nat
  logOnce : Bool
deriving DecidableEq, Repr, Inhabited

/-- Bitwise AND of two lane masks (`BitVector::operator&=`). -/
def maskAnd (a b : List Bool) : List Bool :=
  List.zipWith (fun x y => x && y) a b

/-- Bitwise NOT of a lane mask (`BitVector::operator~`). -/
def maskNot (a : List Bool) : List Bool :=
  a.map (fun x => !x)

/-- Number of set lanes (`BitVector::count`). -/
def maskCount (a : List Bool) : Nat :=
  a.countP (fun x => x)

/-- `BitVector::none`: true iff no lane is set. -/
def maskNone (a : List Bool) : Bool :=
  !(a.any (fun x => x))

/-- `a` is a lane-wise subset of `b` (every set lane of `a` is set in `b`). -/
def maskSubset (a b : List Bool) : Bool :=
  (List.zipWith (fun x y => !x || y) a b).all (fun z => z)

/-- `HashTable<T>` from `types.h`: a fixed-capacity slot table.  Each entry is
a `(valid, value)` pair; `size` mirrors the separately maintained `size_`
counter. -/
structure HashTable (T : Type) where
  entries : List (Bool × T)
  size : Nat
deriving DecidableEq, Repr

/-- `HashTable::empty()`. -/
def HashTable.empty {T : Type} (ht : HashTable T) : Bool :=
  ht.size == 0

/-- `HashTable::full()`. -/
def HashTable.full {T : Type} (ht : HashTable T) : Bool :=
  ht.size == ht.entries.length

/-- `HashTable::contains(index)`. -/
def HashTable.contains {T : Type} (ht : HashTable T) (i : Nat) : Bool :=
  match ht.entries[i]? with
  | some e => e.1
  | none => false

/-- `HashTable::at(index)`: `none` models the failed `assert(entry.first)`. -/
def HashTable.atIdx {T : Type} (ht : HashTable T) (i : Nat) : Option T :=
  match ht.entries[i]? with
  | some (true, v) => some v
  | _ => none

/-- The linear scan inside `HashTable::allocate`: index of the first invalid
(i.e. free) entry. -/
def findFreeIdx {T : Type} : List (Bool × T) → Option Nat
  | [] => none
  | (b, _) :: rest =>
    if b then (findFreeIdx rest).map (fun i => i + 1) else some 0

/-- `HashTable::allocate(value)`: claim the first free slot and return its
index; `none` models the fatal `assert(false)` when no slot is free. -/
def HashTable.allocate {T : Type} (ht : HashTable T) (v : T) :
    Option (Nat × HashTable T) :=
  match findFreeIdx ht.entries with
  | none => none
  | some i => some (i, ⟨ht.entries.set i (true, v), ht.size + 1⟩)

/-- `HashTable::release(index)`: `none` models the failed `assert(entry.first)`. -/
def HashTable.release {T : Type} (ht : HashTable T) (i : Nat) :
    Option (HashTable T) :=
  match ht.entries[i]? with
  | some (true, v) => some ⟨ht.entries.set i (false, v), ht.size - 1⟩
  | _ => none

/-- Write through the reference returned by `HashTable::at(index)` (the LSU
updates `entry.mask` in place); defined only for an allocated slot. -/
def HashTable.setEntry {T : Type} (ht : HashTable T) (i : Nat) (v : T) :
    Option (HashTable T) :=
  match ht.entries[i]? with
  | some (true, _) => some ⟨ht.entries.set i (true, v), ht.size⟩
  | _ => none

/-- The `size_` counter agrees with the number of valid entries (maintained
by construction in the C++ class). -/
def HashTable.sizeOk {T : Type} (ht : HashTable T) : Prop :=
  ht.size = ht.entries.countP (fun e => e.1)

/-- An entry of the LSU pending table: the retained trace and the lanes whose
responses are still outstanding (`pending_req_t`). -/
structure PendingEntry where
  trace : Trace
  mask : List Bool
deriving DecidableEq, Repr

/-- `LsuReq` from `types.h`. -/
structure LsuReq where
  mask : List Bool
  addrs : List Nat
  write : Bool
  tag : Nat
  cid : Nat
  uuid : Nat
deriving DecidableEq, Repr

/-- `LsuRsp` from `types.h`. -/
structure LsuRsp where
  mask : List Bool
  tag : Nat
  cid : Nat
  uuid : Nat
deriving DecidableEq, Repr

/-- Per-block LSU state (`LsuUnit::block_state_t`). `fence_trace` always holds
a trace value (the C++ field is a raw pointer that is only read while
`fence_lock` is set). -/
structure BankState where
  pending_rd_reqs : HashTable PendingEntry
  fence_lock : Bool
  fence_trace : Trace
deriving DecidableEq, Repr

/-- The observable state of `LsuUnit` during `tick`: the per-bank states, the
per-lane input queues, the recorded output-port and request-port pushes, and
the counters (`pending_loads_` plus the touched perf counters).
`queueFullLogs` counts emissions of the debounced queue-full diagnostic. -/
structure LsuState where
  banks : List BankState
  inputs : List (List Trace)
  outputs : List (List (Trace × Nat))
  reqs : List (List LsuReq)
  pending_loads : Nat
  load_latency : Nat
  loads : Nat
  stores : Nat
  queueFullLogs : Nat
deriving DecidableEq, Repr

/-- Record a push of `x` on port `i` of a port list. -/
def pushAt {α : Type} (qs : List (List α)) (i : Nat) (x : α) : List (List α) :=
  qs.set i (qs.getD i [] ++ [x])

/-- Line 114 of `func_unit.cpp`: `load_latency += pending_loads_`, executed
before any response is absorbed and before any request issues. -/
def statsPhase (s : LsuState) : LsuState :=
  { s with load_latency := s.load_latency + s.pending_loads }

/-- Lines 117-136 of `func_unit.cpp` for one bank `b`: absorb the response at
the front of the bank's demux response port (if any).  Clear the response
lanes from the pending entry's remaining mask; when the mask empties, push the
retained trace to output lane `wid % ISSUE_WIDTH` with delay 1 and release the
slot; in both cases decrement `pending_loads_` by the response's popcount. -/
def rspStep (IW : Nat) (s : LsuState) (b : Nat) (orsp : Option LsuRsp) :
    Option LsuState :=
  match orsp with
  | none => some s
  | some rsp =>
    match s.banks[b]? with
    | none => none
    | some bank =>
      match bank.pending_rd_reqs.atIdx rsp.tag with
      | none => none
      | some entry =>
        if maskNone entry.mask then none
        else
          let newMask := maskAnd entry.mask (maskNot rsp.mask)
          if maskNone newMask then
            match bank.pending_rd_reqs.release rsp.tag with
            | none => none
            | some ht2 =>
              some { s with
                banks := s.banks.set b { bank with pending_rd_reqs := ht2 },
                outputs := pushAt s.outputs (entry.trace.wid % IW) (entry.trace, 1),
                pending_loads := s.pending_loads - maskCount rsp.mask }
          else
            match bank.pending_rd_reqs.setEntry rsp.tag { entry with mask := newMask } with
            | none => none
            | some ht2 =>
              some { s with
                banks := s.banks.set b { bank with pending_rd_reqs := ht2 },
                pending_loads := s.pending_loads - maskCount rsp.mask }

/-- The response loop of `LsuUnit::tick`, banks `b, b+1, ...` paired with the
fronts of their demux response ports. -/
def rspPhaseAux (IW : Nat) (s : LsuState) (b : Nat) :
    List (Option LsuRsp) → Option LsuState
  | [] => some s
  | r :: rest =>
    match rspStep IW s b r with
    | none => none
    | some s2 => rspPhaseAux IW s2 (b + 1) rest

/-- Lines 185-191 of `func_unit.cpp`: the request mask — lane `i` is active
iff `tmask[pid * NUM_LSU_LANES + i]`. -/
def activeMask (L : Nat) (t : Trace) : List Bool :=
  (List.range L).map (fun i => t.tmask.getD (t.pid * L + i) false)

/-- Lines 185-191 of `func_unit.cpp`: per-lane addresses of active lanes
(inactive lanes keep the constructor's zero). -/
def activeAddrs (L : Nat) (t : Trace) : List Nat :=
  (List.range L).map (fun i =>
    if t.tmask.getD (t.pid * L + i) false then t.mem_addrs.getD (t.pid * L + i) 0
    else 0)

/-- Build the `LsuReq` issued for a trace (lines 181-199 of `func_unit.cpp`). -/
def mkLsuReq (L : Nat) (t : Trace) (w : Bool) (tag : Nat) : LsuReq :=
  { mask := activeMask L t
    addrs := activeAddrs L t
    write := w
    tag := tag
    cid := t.cid
    uuid := t.uuid }

/-- Lines 151-221 of `func_unit.cpp`: the input-queue half of the issue loop
for lane `iw` (after the fence-lock check).  FENCE latches the fence;
STORE issues downstream, pushes to output with delay 1 and pops; LOAD stalls
when the pending table is full (setting the `log_once` latch, emitting the
debounced diagnostic if the latch was clear), otherwise clears the latch,
allocates a pending slot whose index becomes the request tag, issues
downstream, bumps the load counters and pops. -/
def issueInput (B IW L : Nat) (s : LsuState) (iw : Nat) : Option LsuState :=
  let bidx := iw % B
  match s.banks[bidx]? with
  | none => none
  | some bank =>
    match s.inputs[iw]? with
    | none => none
    | some [] => some s
    | some (trace :: rest) =>
      match trace.lsu_type with
      | LsuType.FENCE =>
        some { s with
          banks := s.banks.set bidx
            { bank with fence_trace := trace, fence_lock := true },
          inputs := s.inputs.set iw rest }
      | LsuType.STORE =>
        let trace2 := { trace with logOnce := false }
        let req := mkLsuReq L trace2 true 0
        some { s with
          reqs := pushAt s.reqs bidx req,
          stores := s.stores + maskCount req.mask,
          outputs := pushAt s.outputs iw (trace2, 1),
          inputs := s.inputs.set iw rest }
      | LsuType.LOAD =>
        if bank.pending_rd_reqs.full then
          some { s with
            inputs := s.inputs.set iw ({ trace with logOnce := true } :: rest),
            queueFullLogs := s.queueFullLogs + (if trace.logOnce then 0 else 1) }
        else
          let trace2 := { trace with logOnce := false }
          let rmask := activeMask L trace2
          match bank.pending_rd_reqs.allocate { trace := trace2, mask := rmask } with
          | none => none
          | some (tag, ht2) =>
            some { s with
              banks := s.banks.set bidx { bank with pending_rd_reqs := ht2 },
              reqs := pushAt s.reqs bidx (mkLsuReq L trace2 false tag),
              loads := s.loads + maskCount rmask,
              pending_loads := s.pending_loads + maskCount rmask,
              inputs := s.inputs.set iw rest }

/-- Lines 139-221 of `func_unit.cpp`: the whole issue-loop body for lane `iw`
(bank `iw % NUM_LSU_BLOCKS`).  A fence-locked bank with outstanding reads
skips the lane; a fence-locked bank whose pending table drained pushes the
latched fence trace to output `iw` with delay 1, clears the lock, and then
falls through to the input-queue handling. -/
def issueStep (B IW L : Nat) (s : LsuState) (iw : Nat) : Option LsuState :=
  let bidx := iw % B
  match s.banks[bidx]? with
  | none => none
  | some bank =>
    if bank.fence_lock then
      if bank.pending_rd_reqs.empty then
        issueInput B IW L
          { s with
            banks := s.banks.set bidx { bank with fence_lock := false },
            outputs := pushAt s.outputs iw (bank.fence_trace, 1) } iw
      else some s
    else issueInput B IW L s iw

/-- The issue loop over a list of lanes. -/
def issueLanes (B IW L : Nat) (s : LsuState) : List Nat → Option LsuState
  | [] => some s
  | iw :: rest =>
    match issueStep B IW L s iw with
    | none => none
    | some s2 => issueLanes B IW L s2 rest

/-- `LsuUnit::tick`: drain statistics, absorb one response per bank, then run
the issue loop over all `ISSUE_WIDTH` lanes.  `rsps` lists the front of each
bank's demux response port (`none` = port empty). -/
def LsuTick (B IW L : Nat) (s : LsuState) (rsps : List (Option LsuRsp)) :
    Option LsuState :=
  match rspPhaseAux IW (statsPhase s) 0 rsps with
  | none => none
  | some s1 => issueLanes B IW L s1 (List.range IW)

/-- Iterated response absorption on bank 0 (the response-phase code of
`LsuUnit::tick` run once per arriving response). -/
def absorbSeq (IW : Nat) (s : LsuState) : List LsuRsp → Option LsuState
  | [] => some s
  | r :: rest =>
    match rspStep IW s 0 (some r) with
    | none => none
    | some s2 => absorbSeq IW s2 rest

/-- Iterate the issue-loop body for one lane `n` times (a stall episode in
which nothing else changes the unit's state). -/
def issueStepN (B IW L : Nat) (s : LsuState) (iw : Nat) : Nat → Option LsuState
  | 0 => some s
  | n + 1 =>
    match issueStep B IW L s iw with
    | none => none
    | some s2 => issueStepN B IW L s2 iw n

/-- Sum of the outstanding-lane popcounts over the allocated slots of a
pending table. -/
def pendingSum (ht : HashTable PendingEntry) : Nat :=
  (ht.entries.map (fun e => if e.1 then maskCount e.2.mask else 0)).sum

/-- Sum of `pendingSum` over all banks. -/
def totalPending (s : LsuState) : Nat :=
  (s.banks.map (fun bk => pendingSum bk.pending_rd_reqs)).sum

/-- The claimed LSU counter invariant: `pending_loads` equals the total
outstanding-lane count of the pending tables. -/
def PendingInv (s : LsuState) : Prop :=
  s.pending_loads = totalPending s

/-- A drains-chain: each response's lanes are a non-empty subset of the lanes
still outstanding, and the sequence cumulatively covers the whole remaining
mask (the §6 memory-subsystem contract for one request). -/
def drains (m : List Bool) : List LsuRsp → Prop
  | [] => maskNone m = true
  | r :: rest =>
    maskNone r.mask = false ∧ maskSubset r.mask m = true ∧
      r.mask.length = m.length ∧ drains (maskAnd m (maskNot r.mask)) rest

/-- All responses of a list carry the same tag. -/
def allTagged (tag : Nat) (rs : List LsuRsp) : Prop :=
  ∀ r ∈ rs, r.tag = tag

/-- A response is valid for bank `b` of state `s`: it addresses an allocated
slot of that bank and covers a subset of the slot's still-outstanding
lanes. -/
def RspOk (s : LsuState) (b : Nat) (rsp : LsuRsp) : Prop :=
  ∃ (bank : BankState) (entry : PendingEntry), s.banks[b]? = some bank ∧
    bank.pending_rd_reqs.atIdx rsp.tag = some entry ∧
    maskSubset rsp.mask entry.mask = true ∧
    rsp.mask.length = entry.mask.length

/-- Validity of the pending responses offered to one `LsuUnit::tick`. -/
def ValidRsps (s : LsuState) (rsps : List (Option LsuRsp)) : Prop :=
  ∀ (b : Nat) (rsp : LsuRsp), rsps[b]? = some (some rsp) → RspOk s b rsp

/-- `AluUnit::tick` delay selection (lines 36-48 of `func_unit.cpp`):
`int delay = 2` plus the per-op latency. -/
def aluDelay (limul xlen : Nat) : AluType → Nat
  | AluType.ARITH => 2 + 2
  | AluType.BRANCH => 2 + 2
  | AluType.SYSCALL => 2 + 2
  | AluType.IMUL => limul + 2
  | AluType.IDIV => xlen + 2

/-- The per-lane effect of `AluUnit::tick`: the input queue afterwards, the
recorded output pushes, and the warps passed to `core->resume`. -/
structure AluLaneResult where
  inputAfter : List Trace
  pushes : List (Trace × Nat)
  resumes : List Nat
deriving DecidableEq, Repr

/-- Lines 30-57 of `func_unit.cpp` for one issue lane: pop the front trace
(if any), push it to the same lane's output with the type-dependent delay,
and resume the warp when `eop && fetch_stall`. -/
def aluLane (limul xlen : Nat) (q : List Trace) : AluLaneResult :=
  match q with
  | [] => { inputAfter := [], pushes := [], resumes := [] }
  | t :: rest =>
    { inputAfter := rest
      pushes := [(t, aluDelay limul xlen t.alu_type)]
      resumes := if t.eop && t.fetch_stall then [t.wid] else [] }

/-- `AluUnit::tick`: every issue lane processed independently. -/
def aluTick (limul xlen : Nat) (inputs : List (List Trace)) :
    List AluLaneResult :=
  inputs.map (aluLane limul xlen)

/-- The warp-scheduler callbacks the SFU dispatches to (`core->wspawn` and
`core->barrier`), abstracted as oracles returning the release decision. -/
structure SfuCallbacks where
  wspawnFn : Nat → Nat → Bool
  barrierFn : Nat → Nat → Nat → Bool

/-- The per-lane effect of `SfuUnit::tick`: output pushes (to the lane's own
output), coprocessor forwardings `(unit index, trace, delay)`, the callback
invocations with their arguments, and the warps resumed. -/
structure SfuLaneResult where
  pushes : List (Trace × Nat)
  rasterFwd : List (Nat × Trace × Nat)
  texFwd : List (Nat × Trace × Nat)
  omFwd : List (Nat × Trace × Nat)
  wspawnCalls : List (Nat × Nat)
  barrierCalls : List (Nat × Nat × Nat)
  resumes : List Nat

/-- Lines 259-314 of `func_unit.cpp` for one issue lane with trace `t` at the
front: `release_warp` starts as `fetch_stall`; WSPAWN/BAR push with delay 4
and, on `eop`, invoke the callback whose boolean return overrides
`release_warp`; the plain warp-control/CSR ops push with delay 4; RASTER/TEX/
OM forward to the indexed coprocessor with delay 2; CMOV falls into the fatal
`default` (`none`).  Afterwards `eop && release_warp` resumes the warp and the
input is popped. -/
def sfuLane (cb : SfuCallbacks) (t : Trace) : Option SfuLaneResult :=
  let rw := t.fetch_stall
  match t.sfu_type with
  | SfuType.WSPAWN =>
    let rw2 := if t.eop then cb.wspawnFn t.arg1 t.arg2 else rw
    some { pushes := [(t, 2 + 2)]
           rasterFwd := [], texFwd := [], omFwd := []
           wspawnCalls := if t.eop then [(t.arg1, t.arg2)] else []
           barrierCalls := []
           resumes := if t.eop && rw2 then [t.wid] else [] }
  | SfuType.TMC | SfuType.SPLIT | SfuType.JOIN | SfuType.PRED
  | SfuType.CSRRW | SfuType.CSRRS | SfuType.CSRRC =>
    some { pushes := [(t, 2 + 2)]
           rasterFwd := [], texFwd := [], omFwd := []
           wspawnCalls := [], barrierCalls := []
           resumes := if t.eop && rw then [t.wid] else [] }
  | SfuType.BAR =>
    let rw2 := if t.eop then cb.barrierFn t.arg1 t.arg2 t.wid else rw
    some { pushes := [(t, 2 + 2)]
           rasterFwd := [], texFwd := [], omFwd := []
           wspawnCalls := []
           barrierCalls := if t.eop then [(t.arg1, t.arg2, t.wid)] else []
           resumes := if t.eop && rw2 then [t.wid] else [] }
  | SfuType.RASTER =>
    some { pushes := []
           rasterFwd := [(t.unit_idx, t, 2)], texFwd := [], omFwd := []
           wspawnCalls := [], barrierCalls := []
           resumes := if t.eop && rw then [t.wid] else [] }
  | SfuType.OM =>
    some { pushes := []
           rasterFwd := [], texFwd := [], omFwd := [(t.unit_idx, t, 2)]
           wspawnCalls := [], barrierCalls := []
           resumes := if t.eop && rw then [t.wid] else [] }
  | SfuType.TEX =>
    some { pushes := []
           rasterFwd := [], texFwd := [(t.unit_idx, t, 2)], omFwd := []
           wspawnCalls := [], barrierCalls := []
           resumes := if t.eop && rw then [t.wid] else [] }
  | SfuType.CMOV => none

/-- State of a `Mux` instance: the input queues, the recorded output pushes
and the per-output round-robin cursors. -/
structure MuxState (α : Type) where
  inputsQ : List (List α)
  outputsQ : List (List (α × Nat))
  cursors : List Nat
deriving DecidableEq, Repr

/-- The grant scan of `Mux::tick` / `Switch::tick` for output `o` with cursor
`c`: for offsets `r = 0, 1, ...` probe input `j = o*R + ((c + r) & (R-1))`,
skipping out-of-range `j`, and grant the first non-empty input (returning its
in-group index `i`). -/
def muxFindGrant {α : Type} (q : List (List α)) (R o c : Nat) :
    List Nat → Option Nat
  | [] => none
  | r :: rest =>
    let i := (c + r) &&& (R - 1)
    let j := o * R + i
    if j < q.length then
      if (q.getD j []).isEmpty then muxFindGrant q R o c rest else some i
    else muxFindGrant q R o c rest

/-- The body of `Mux::tick` for one output `o`: grant an input, forward its
front with the configured delay, pop it, and advance the cursor to `grant+1`
under RoundRobin (`rr = true`); the cursor is untouched under Priority. -/
def muxOutStep {α : Type} (rr : Bool) (delay R : Nat) (st : MuxState α)
    (o : Nat) : MuxState α :=
  match muxFindGrant st.inputsQ R o (st.cursors.getD o 0) (List.range R) with
  | none => st
  | some i =>
    let j := o * R + i
    match st.inputsQ.getD j [] with
    | [] => st
    | x :: rest =>
      { inputsQ := st.inputsQ.set j rest
        outputsQ := pushAt st.outputsQ o (x, delay)
        cursors := if rr then st.cursors.set o (i + 1) else st.cursors }

/-- `Mux::tick` (lines 476-503 of `types.h`): a no-op in bypass mode
(`I == O`), otherwise each output arbitrates over its group of
`R = I / O` inputs. -/
def muxTick {α : Type} (rr : Bool) (delay : Nat) (st : MuxState α) :
    MuxState α :=
  let I := st.inputsQ.length
  let O := st.outputsQ.length
  if I == O then st
  else (List.range O).foldl (muxOutStep rr delay (I / O)) st

/-- Iterate `Mux::tick`. -/
def muxRun {α : Type} (rr : Bool) (delay : Nat) :
    Nat → MuxState α → MuxState α
  | 0, st => st
  | n + 1, st => muxRun rr delay n (muxTick rr delay st)

/-- The input index granted by the next tick of a one-output mux
(`O = 1`, `R = I`). -/
def muxGrant {α : Type} (st : MuxState α) : Option Nat :=
  muxFindGrant st.inputsQ st.inputsQ.length 0 (st.cursors.getD 0 0)
    (List.range st.inputsQ.length)

/-- The grant performed by tick number `t` (0-based) of a one-output mux. -/
def muxGrantAt {α : Type} (rr : Bool) (delay : Nat) (st : MuxState α)
    (t : Nat) : Option Nat :=
  muxGrant (muxRun rr delay t st)

/-- A request crossing a `Switch` (only the tag matters to the claims; `uuid`
stands for the rest of the payload). -/
structure SwReq where
  tag : Nat
  uuid : Nat
deriving DecidableEq, Repr

/-- A response crossing a `Switch`. -/
structure SwRsp where
  tag : Nat
  uuid : Nat
deriving DecidableEq, Repr

/-- Line 603 of `types.h` (`req.tag = (req.tag << lg_num_reqs_) | i`), on the
32-bit tag field of `MemReq`: the transmitted tag, reduced modulo `2^32`.
When `lg = 0` the tag is untouched. -/
def encodeReqTag (lg i tag : Nat) : Nat :=
  if lg ≠ 0 then ((tag <<< lg) ||| i) % 2 ^ 32 else tag

/-- State of a `Switch` instance: request-input queues, recorded
response-input deliveries, recorded request-output pushes, response-output
queues, and the per-output cursors. -/
structure SwitchState where
  reqIn : List (List SwReq)
  rspIn : List (List (SwRsp × Nat))
  reqOut : List (List (SwReq × Nat))
  rspOut : List (List SwRsp)
  cursors : List Nat
deriving DecidableEq, Repr

/-- The body of `Switch::tick` for one output `o` (lines 577-611 of
`types.h`): first deliver the front response of `RspOut[o]` — decoding the
source index from the low `lg` bits of its tag and shifting the tag right —
to `RspIn[o*R + i]` with delay 1; then arbitrate the request inputs of the
group, encode the grant index into the forwarded request's tag, and push it
to `ReqOut[o]` with the configured delay. -/
def switchOutStep (rr : Bool) (delay lg R : Nat) (st : SwitchState) (o : Nat) :
    SwitchState :=
  let st1 :=
    match st.rspOut.getD o [] with
    | [] => st
    | rsp :: rest =>
      let i := if lg ≠ 0 then rsp.tag &&& (R - 1) else 0
      let tag2 := if lg ≠ 0 then rsp.tag >>> lg else rsp.tag
      let j := o * R + i
      { st with
        rspOut := st.rspOut.set o rest
        rspIn := pushAt st.rspIn j ({ rsp with tag := tag2 }, 1) }
  match muxFindGrant st1.reqIn R o (st1.cursors.getD o 0) (List.range R) with
  | none => st1
  | some i =>
    let j := o * R + i
    match st1.reqIn.getD j [] with
    | [] => st1
    | req :: rest =>
      { st1 with
        reqIn := st1.reqIn.set j rest
        reqOut := pushAt st1.reqOut o ({ req with tag := encodeReqTag lg i req.tag }, delay)
        cursors := if rr then st1.cursors.set o (i + 1) else st1.cursors }

/-- `Switch::tick` (lines 568-613 of `types.h`): a no-op in bypass mode,
otherwise the per-output step with `R = 1 << lg_num_reqs_`. -/
def switchTick (rr : Bool) (delay lg : Nat) (st : SwitchState) : SwitchState :=
  let I := st.reqIn.length
  let O := st.reqOut.length
  if I == O then st
  else (List.range O).foldl (switchOutStep rr delay lg (1 <<< lg)) st

/-! ### Concrete fixtures used to instantiate the theorems -/

/-- A concrete single-lane trace (`NUM_LSU_LANES = 1`). -/
def tr0 : Trace :=
  { uuid := 1, cid := 0, wid := 0, pid := 0, tmask := [true]
    eop := true, fetch_stall := false
    lsu_type := LsuType.LOAD, alu_type := AluType.ARITH
    sfu_type := SfuType.WSPAWN, arg1 := 3, arg2 := 4096, unit_idx := 0
    mem_addrs := [7], logOnce := false }

/-- A capacity-1 pending table with its slot free. -/
def emptyPT : HashTable PendingEntry :=
  ⟨[(false, ⟨tr0, [false]⟩)], 0⟩

/-- A capacity-1 pending table whose slot holds `tr0` with one outstanding
lane. -/
def fullPT : HashTable PendingEntry :=
  ⟨[(true, ⟨tr0, [true]⟩)], 1⟩

/-- A one-bank, one-lane LSU state with nothing in flight. -/
def sBase : LsuState :=
  { banks := [{ pending_rd_reqs := emptyPT, fence_lock := false, fence_trace := tr0 }]
    inputs := [[]], outputs := [[]], reqs := [[]]
    pending_loads := 0, load_latency := 0, loads := 0, stores := 0
    queueFullLogs := 0 }

/-- A one-bank, one-lane LSU state with one outstanding single-lane load. -/
def sPend : LsuState :=
  { banks := [{ pending_rd_reqs := fullPT, fence_lock := false, fence_trace := tr0 }]
    inputs := [[]], outputs := [[]], reqs := [[]]
    pending_loads := 1, load_latency := 0, loads := 1, stores := 0
    queueFullLogs := 0 }

/-- A capacity-1 pending table whose slot holds `tr0` with two outstanding
lanes (`NUM_LSU_LANES = 2`). -/
def fullPT2 : HashTable PendingEntry :=
  ⟨[(true, ⟨tr0, [true, true]⟩)], 1⟩

/-- A one-bank LSU state with one outstanding two-lane load. -/
def sPend2 : LsuState :=
  { banks := [{ pending_rd_reqs := fullPT2, fence_lock := false, fence_trace := tr0 }]
    inputs := [[]], outputs := [[]], reqs := [[]]
    pending_loads := 2, load_latency := 0, loads := 2, stores := 0
    queueFullLogs := 0 }

/-! ### Generic list and mask lemmas -/

theorem list_set_self {α : Type} (l : List α) (i : Nat) (x : α)
    (h : l[i]? = some x) : l.set i x = l := by
  apply List.ext_getElem?
  intro j
  by_cases hj : i = j
  · subst hj
    have hlt : i < l.length := (List.getElem?_eq_some.mp h).1
    simp [List.getElem?_set_self hlt, h]
  · simp [List.getElem?_set_ne hj]

theorem sum_set_nat :
    ∀ (l : List Nat) (i x y : Nat), l[i]? = some y →
      (l.set i x).sum + y = l.sum + x := by
  intro l
  induction l with
  | nil => intro i x y h; simp at h
  | cons a as ih =>
    intro i x y h
    cases i with
    | zero =>
      simp at h
      simp [List.set]
      omega
    | succ n =>
      simp at h
      have := ih n x y h
      simp [List.set]
      omega

theorem list_map_sum_set {α : Type} (f : α → Nat) (l : List α) (i : Nat)
    (x y : α) (h : l[i]? = some y) :
    ((l.set i x).map f).sum + f y = (l.map f).sum + f x := by
  rw [List.map_set]
  exact sum_set_nat (l.map f) i (f x) (f y) (by rw [List.getElem?_map, h]; rfl)

theorem le_list_map_sum {α : Type} (f : α → Nat) :
    ∀ (l : List α) (i : Nat) (y : α), l[i]? = some y →
      f y ≤ (l.map f).sum := by
  intro l
  induction l with
  | nil => intro i y h; simp at h
  | cons a as ih =>
    intro i y h
    cases i with
    | zero =>
      simp at h
      subst h
      simp
    | succ n =>
      simp at h
      have := ih n y h
      simp
      omega

theorem maskCount_of_none : ∀ (a : List Bool), maskNone a = true → maskCount a = 0 := by
  intro a
  induction a with
  | nil => intro _; rfl
  | cons x xs ih =>
    intro h
    simp [maskNone] at h
    obtain ⟨hx, hxs⟩ := h
    subst hx
    simp [maskCount, List.countP_cons]
    have := ih (by simp [maskNone, hxs])
    simpa [maskCount] using this

theorem maskSubset_of_none :
    ∀ (a b : List Bool), a.length = b.length → maskSubset a b = true →
      maskNone b = true → maskNone a = true := by
  intro a
  induction a with
  | nil => intro b _ _ _; rfl
  | cons x xs ih =>
    intro b hlen hsub hnone
    cases b with
    | nil => simp at hlen
    | cons y ys =>
      simp [maskSubset] at hsub
      simp [maskNone] at hnone ⊢
      obtain ⟨hxy, hrest⟩ := hsub
      obtain ⟨hy, hys⟩ := hnone
      subst hy
      simp at hxy
      refine ⟨hxy, ?_⟩
      have := ih ys (by simpa using hlen) (by simpa [maskSubset] using hrest)
        (by simp [maskNone, hys])
      simpa [maskNone] using this

theorem maskCount_diff :
    ∀ (a b : List Bool), a.length = b.length → maskSubset a b = true →
      maskCount (maskAnd b (maskNot a)) + maskCount a = maskCount b := by
  intro a
  induction a with
  | nil =>
    intro b hlen _
    cases b with
    | nil => rfl
    | cons y ys => simp at hlen
  | cons x xs ih =>
    intro b hlen hsub
    cases b with
    | nil => simp at hlen
    | cons y ys =>
      simp [maskSubset] at hsub
      obtain ⟨hxy, hrest⟩ := hsub
      have ihr := ih ys (by simpa using hlen) (by simpa [maskSubset] using hrest)
      simp [maskAnd, maskNot, maskCount, List.countP_cons] at ihr ⊢
      cases x with
      | true =>
        simp at hxy
        subst hxy
        simp [maskCount] at ihr ⊢
        omega
      | false =>
        simp [maskCount] at ihr ⊢
        cases y <;> simp <;> omega

theorem maskCount_le_of_subset (a b : List Bool) (hlen : a.length = b.length)
    (hsub : maskSubset a b = true) : maskCount a ≤ maskCount b := by
  have := maskCount_diff a b hlen hsub
  omega

/-! ### HashTable lemmas -/

theorem HashTable.atIdx_iff {T : Type} (ht : HashTable T) (i : Nat) (v : T) :
    ht.atIdx i = some v ↔ ht.entries[i]? = some (true, v) := by
  unfold HashTable.atIdx
  constructor
  · intro h
    split at h
    next heq => cases h; exact heq
    next => cases h
  · intro h
    rw [h]

theorem HashTable.contains_of_atIdx {T : Type} (ht : HashTable T) (i : Nat) (v : T)
    (h : ht.atIdx i = some v) : ht.contains i = true := by
  rw [HashTable.atIdx_iff] at h
  unfold HashTable.contains
  rw [h]

theorem HashTable.release_of_atIdx {T : Type} (ht : HashTable T) (i : Nat) (v : T)
    (h : ht.atIdx i = some v) :
    ht.release i = some ⟨ht.entries.set i (false, v), ht.size - 1⟩ := by
  rw [HashTable.atIdx_iff] at h
  unfold HashTable.release
  rw [h]

theorem HashTable.setEntry_of_atIdx {T : Type} (ht : HashTable T) (i : Nat) (v w : T)
    (h : ht.atIdx i = some v) :
    ht.setEntry i w = some ⟨ht.entries.set i (true, w), ht.size⟩ := by
  rw [HashTable.atIdx_iff] at h
  unfold HashTable.setEntry
  rw [h]

theorem findFreeIdx_spec {T : Type} :
    ∀ (l : List (Bool × T)) (i : Nat), findFreeIdx l = some i →
      (∃ w, l[i]? = some (false, w)) ∧
        ∀ j, j < i → ∃ w, l[j]? = some (true, w) := by
  intro l
  induction l with
  | nil => intro i h; simp [findFreeIdx] at h
  | cons e es ih =>
    intro i h
    obtain ⟨b, w⟩ := e
    cases b with
    | false =>
      simp [findFreeIdx] at h
      subst h
      exact ⟨⟨w, by simp⟩, fun j hj => absurd hj (Nat.not_lt_zero j)⟩
    | true =>
      simp [findFreeIdx] at h
      obtain ⟨i2, hi2, rfl⟩ := h
      obtain ⟨⟨w2, hw2⟩, hprev⟩ := ih i2 hi2
      refine ⟨⟨w2, by simpa using hw2⟩, ?_⟩
      intro j hj
      cases j with
      | zero => exact ⟨w, by simp⟩
      | succ j2 =>
        have := hprev j2 (by omega)
        simpa using this

theorem findFreeIdx_none {T : Type} :
    ∀ (l : List (Bool × T)), findFreeIdx l = none →
      l.countP (fun e => e.1) = l.length := by
  intro l
  induction l with
  | nil => intro _; rfl
  | cons e es ih =>
    intro h
    obtain ⟨b, w⟩ := e
    cases b with
    | false => simp [findFreeIdx] at h
    | true =>
      simp [findFreeIdx] at h
      simp [List.countP_cons, ih h]

theorem HashTable.allocate_of_not_full {T : Type} (ht : HashTable T) (v : T)
    (hok : ht.sizeOk) (hfull : ht.full = false) :
    ∃ i ht2, ht.allocate v = some (i, ht2) := by
  unfold HashTable.allocate
  cases hfind : findFreeIdx ht.entries with
  | some i => exact ⟨i, _, rfl⟩
  | none =>
    exfalso
    have hcount := findFreeIdx_none ht.entries hfind
    unfold HashTable.sizeOk at hok
    unfold HashTable.full at hfull
    simp at hfull
    omega

theorem HashTable.allocate_spec {T : Type} (ht : HashTable T) (v : T) (i : Nat)
    (ht2 : HashTable T) (h : ht.allocate v = some (i, ht2)) :
    findFreeIdx ht.entries = some i ∧
      ht2 = ⟨ht.entries.set i (true, v), ht.size + 1⟩ := by
  unfold HashTable.allocate at h
  split at h
  next => cases h
  next j heq =>
    cases h
    exact ⟨heq, rfl⟩

/-! ### C6: ALU latencies -/

/-- C6: on an `AluUnit::tick`, the trace at the head of an ALU input lane is
popped and pushed to the same lane's output, with total delay 4 for ARITH,
BRANCH and SYSCALL, `LATENCY_IMUL + 2` for IMUL, and `XLEN + 2` for IDIV
(and the warp resumed when `eop && fetch_stall`).  The `AluType` enumeration
is closed, so no value reaches the fatal `default` branch. -/
theorem alu_lane_latency (limul xlen : Nat) (inputs : List (List Trace))
    (iw : Nat) (t : Trace) (rest : List Trace)
    (h : inputs[iw]? = some (t :: rest)) :
    (aluTick limul xlen inputs)[iw]? = some
      { inputAfter := rest
        pushes := [(t, aluDelay limul xlen t.alu_type)]
        resumes := if t.eop && t.fetch_stall then [t.wid] else [] } ∧
    ((t.alu_type = AluType.ARITH ∨ t.alu_type = AluType.BRANCH ∨
        t.alu_type = AluType.SYSCALL) → aluDelay limul xlen t.alu_type = 4) ∧
    (t.alu_type = AluType.IMUL → aluDelay limul xlen t.alu_type = limul + 2) ∧
    (t.alu_type = AluType.IDIV → aluDelay limul xlen t.alu_type = xlen + 2) := by
  refine ⟨?_, ?_, ?_, ?_⟩
  · simp [aluTick, List.getElem?_map, h, aluLane]
  · rintro (h1 | h1 | h1) <;> rw [h1] <;> rfl
  · intro h1; rw [h1]; rfl
  · intro h1; rw [h1]; rfl

/-- Witness for C6 at a concrete input (`LATENCY_IMUL = 3`, `XLEN = 32`). -/
theorem alu_lane_latency_witness :
    ([[tr0]] : List (List Trace))[0]? = some (tr0 :: []) ∧
    (aluTick 3 32 [[tr0]])[0]? = some
      { inputAfter := []
        pushes := [(tr0, aluDelay 3 32 tr0.alu_type)]
        resumes := if tr0.eop && tr0.fetch_stall then [tr0.wid] else [] } :=
  ⟨rfl, (alu_lane_latency 3 32 [[tr0]] 0 tr0 [] rfl).1⟩

/-! ### C5: SFU WSPAWN/BAR resume semantics -/

/-- C5: for an SFU trace of type WSPAWN or BAR, the warp-scheduler callback
is invoked exactly when `eop` holds, and the warp is resumed iff `eop` holds
and the callback returned true (the return value overrides the default
`release_warp = fetch_stall`). -/
theorem sfu_wspawn_bar_resume (cb : SfuCallbacks) (t : Trace) :
    (t.sfu_type = SfuType.WSPAWN →
      ∃ res, sfuLane cb t = some res ∧
        res.wspawnCalls = (if t.eop then [(t.arg1, t.arg2)] else []) ∧
        res.resumes =
          (if t.eop && cb.wspawnFn t.arg1 t.arg2 then [t.wid] else [])) ∧
    (t.sfu_type = SfuType.BAR →
      ∃ res, sfuLane cb t = some res ∧
        res.barrierCalls = (if t.eop then [(t.arg1, t.arg2, t.wid)] else []) ∧
        res.resumes =
          (if t.eop && cb.barrierFn t.arg1 t.arg2 t.wid then [t.wid] else [])) := by
  constructor
  · intro h
    unfold sfuLane
    rw [h]
    refine ⟨_, rfl, rfl, ?_⟩
    cases he : t.eop <;> simp [he]
  · intro h
    unfold sfuLane
    rw [h]
    refine ⟨_, rfl, rfl, ?_⟩
    cases he : t.eop <;> simp [he]

/-- Witness for C5 at a concrete callback and trace. -/
theorem sfu_wspawn_bar_resume_witness :
    tr0.sfu_type = SfuType.WSPAWN ∧
    (∃ res,
      sfuLane ⟨fun _ _ => true, fun _ _ _ => false⟩ tr0 = some res ∧
      res.wspawnCalls = (if tr0.eop then [(tr0.arg1, tr0.arg2)] else []) ∧
      res.resumes =
        (if tr0.eop && true then [tr0.wid] else [])) :=
  ⟨rfl, (sfu_wspawn_bar_resume ⟨fun _ _ => true, fun _ _ _ => false⟩ tr0).1 rfl⟩

/-! ### C4: Switch tag encode/decode -/

theorem shl_or_eq_add (tag i k : Nat) (hi : i < 2 ^ k) :
    (tag <<< k) ||| i = tag * 2 ^ k + i := by
  apply Nat.eq_of_testBit_eq
  intro j
  rw [Nat.testBit_or, Nat.testBit_shiftLeft,
    show tag * 2 ^ k + i = 2 ^ k * tag + i by ring,
    Nat.testBit_mul_pow_two_add tag hi j]
  by_cases hj : j < k
  · simp [hj, Nat.not_le.mpr hj]
  · have hk : k ≤ j := Nat.le_of_not_lt hj
    have : i < 2 ^ j := Nat.lt_of_lt_of_le hi (Nat.pow_le_pow_right (by omega) hk)
    simp [hj, hk, Nat.testBit_lt_two_pow this]

/-- C4 counterexample: with `lg_num_reqs_ = 1`, a request entering input index
1 with original (32-bit) tag `2^31` is transmitted with tag
`(2^31 << 1 | 1) mod 2^32 = 1`, so a tag-preserving downstream round trip
decodes the restored tag as `1 >> 1 = 0 ≠ 2^31`: the encode/decode round trip
is not the identity on the original tag. -/
theorem switch_tag_roundtrip_counterexample :
    (encodeReqTag 1 1 (2 ^ 31)) >>> 1 ≠ 2 ^ 31 := by decide

/-- C4 (amended): for a non-bypass `Switch` with `R = 2^k` (`k ≥ 1`), the
transmitted tag is `((tag << k) | i) mod 2^32` (the 32-bit `MemReq::tag`
field wraps), whose low `k` bits equal the input index `i`; a response on
output `o` with tag `t` is delivered to response input `o*R + (t & (R-1))`
with tag `t >> k`; and encode followed by decode restores
`(input index, original tag)` whenever the original tag fits in the upper
`32 - k` tag bits. -/
theorem switch_tag_transform (rr : Bool) (delay k i tag : Nat)
    (hk : 1 ≤ k) (hk32 : k ≤ 32) (hi : i < 2 ^ k) :
    encodeReqTag k i tag = ((tag <<< k) ||| i) % 2 ^ 32 ∧
    (encodeReqTag k i tag) &&& (2 ^ k - 1) = i ∧
    (∀ (R o : Nat) (st : SwitchState) (rsp : SwRsp) (rest : List SwRsp),
      R = 2 ^ k → st.rspOut.getD o [] = rsp :: rest →
      (switchOutStep rr delay k R st o).rspIn
        = pushAt st.rspIn (o * R + (rsp.tag &&& (R - 1)))
            ({ rsp with tag := rsp.tag >>> k }, 1) ∧
      (switchOutStep rr delay k R st o).rspOut = st.rspOut.set o rest) ∧
    (tag < 2 ^ (32 - k) →
      ((encodeReqTag k i tag) &&& (2 ^ k - 1), (encodeReqTag k i tag) >>> k)
        = (i, tag)) := by
  have hk0 : k ≠ 0 := by omega
  have henc : encodeReqTag k i tag = ((tag <<< k) ||| i) % 2 ^ 32 := by
    unfold encodeReqTag
    simp [hk0]
  have hadd : (tag <<< k) ||| i = tag * 2 ^ k + i := shl_or_eq_add tag i k hi
  have hlow : (encodeReqTag k i tag) &&& (2 ^ k - 1) = i := by
    rw [henc, Nat.and_pow_two_sub_one_eq_mod, Nat.mod_mod_of_dvd _
      (Nat.pow_dvd_pow 2 hk32), hadd, Nat.mul_comm tag (2 ^ k),
      Nat.mul_add_mod, Nat.mod_eq_of_lt hi]
  refine ⟨henc, hlow, ?_, ?_⟩
  · intro R o st rsp rest hR hfront
    unfold switchOutStep
    rw [hfront]
    simp only [hk0, if_true, ne_eq, not_false_iff]
    constructor
    · split
      next => rfl
      next i2 _ =>
        split
        next => rfl
        next => rfl
    · split
      next => rfl
      next i2 _ =>
        split
        next => rfl
        next => rfl
  · intro htag
    have hlt : tag * 2 ^ k + i < 2 ^ 32 := by
      have h1 : tag + 1 ≤ 2 ^ (32 - k) := htag
      have h2 : (tag + 1) * 2 ^ k ≤ 2 ^ (32 - k) * 2 ^ k :=
        Nat.mul_le_mul_right _ h1
      have h3 : 2 ^ (32 - k) * 2 ^ k = 2 ^ 32 := by
        rw [← Nat.pow_add]
        congr 1
        omega
      have h4 : tag * 2 ^ k + 2 ^ k ≤ 2 ^ 32 := by
        rw [← h3]
        calc tag * 2 ^ k + 2 ^ k = (tag + 1) * 2 ^ k := by ring
        _ ≤ 2 ^ (32 - k) * 2 ^ k := h2
      omega
    have henc2 : encodeReqTag k i tag = tag * 2 ^ k + i := by
      rw [henc, hadd, Nat.mod_eq_of_lt hlt]
    rw [hlow, henc2, Nat.shiftRight_eq_div_pow]
    have hdiv : (tag * 2 ^ k + i) / 2 ^ k = tag := by
      rw [Nat.add_comm (tag * 2 ^ k) i,
        Nat.add_mul_div_right _ _ (Nat.two_pow_pos k), Nat.div_eq_of_lt hi]
      omega
    rw [hdiv]

/-- Witness for C4 (amended) at `k = 2`, `i = 3`, `tag = 5`, plus a concrete
response-routing instance. -/
theorem switch_tag_transform_witness :
    (1 ≤ 2 ∧ 2 ≤ 32 ∧ 3 < 2 ^ 2) ∧
    (encodeReqTag 2 3 5 = ((5 <<< 2) ||| 3) % 2 ^ 32 ∧
      (encodeReqTag 2 3 5) &&& (2 ^ 2 - 1) = 3 ∧
      (∀ (R o : Nat) (st : SwitchState) (rsp : SwRsp) (rest : List SwRsp),
        R = 2 ^ 2 → st.rspOut.getD o [] = rsp :: rest →
        (switchOutStep false 1 2 R st o).rspIn
          = pushAt st.rspIn (o * R + (rsp.tag &&& (R - 1)))
              ({ rsp with tag := rsp.tag >>> 2 }, 1) ∧
        (switchOutStep false 1 2 R st o).rspOut = st.rspOut.set o rest) ∧
      (5 < 2 ^ (32 - 2) →
        ((encodeReqTag 2 3 5) &&& (2 ^ 2 - 1), (encodeReqTag 2 3 5) >>> 2)
          = (3, 5))) :=
  ⟨⟨by decide, by decide, by decide⟩,
    switch_tag_transform false 1 2 3 5 (by decide) (by decide) (by decide)⟩

/-! ### C10: allocate returns the least free slot and never hits the
fatal branch in `LsuUnit::tick` -/

theorem issueInput_total (B IW L : Nat) (s : LsuState) (iw : Nat)
    (bank : BankState) (q : List Trace)
    (hbank : s.banks[iw % B]? = some bank)
    (hok : bank.pending_rd_reqs.sizeOk)
    (hq : s.inputs[iw]? = some q) :
    ∃ s2, issueInput B IW L s iw = some s2 := by
  suffices h : (issueInput B IW L s iw).isSome = true by
    simpa [Option.isSome_iff_exists] using h
  cases q with
  | nil => simp [issueInput, hbank, hq]
  | cons trace rest =>
    cases htype : trace.lsu_type with
    | FENCE => simp [issueInput, hbank, hq, htype]
    | STORE => simp [issueInput, hbank, hq, htype]
    | LOAD =>
      by_cases hfull : bank.pending_rd_reqs.full = true
      · simp [issueInput, hbank, hq, htype, hfull]
      · simp at hfull
        obtain ⟨i, ht2, halloc⟩ :=
          HashTable.allocate_of_not_full bank.pending_rd_reqs
            { trace := { trace with logOnce := false }
              mask := activeMask L { trace with logOnce := false } } hok hfull
        rw [htype] at halloc
        simp [issueInput, hbank, hq, htype, hfull, halloc]

/-- C10: `HashTable::allocate` always claims the smallest free index (hence
the first allocation into an empty table returns tag 0), and in
`LsuUnit::tick` it is only reached for a non-write trace after `full()`
returned false, so — given the maintained size invariant — the fatal
no-free-slot branch is unreachable: the issue step always succeeds. -/
theorem allocate_least_free :
    (∀ (T : Type) (ht : HashTable T) (v : T) (i : Nat) (ht2 : HashTable T),
      ht.allocate v = some (i, ht2) →
      (∃ w, ht.entries[i]? = some (false, w)) ∧
        ∀ j, j < i → ∃ w, ht.entries[j]? = some (true, w)) ∧
    (∀ (T : Type) (ht : HashTable T) (v : T),
      ht.sizeOk → ht.full = false →
      ∃ i ht2, ht.allocate v = some (i, ht2)) ∧
    (∀ (B IW L : Nat) (s : LsuState) (iw : Nat) (bank : BankState)
        (q : List Trace),
      s.banks[iw % B]? = some bank → bank.pending_rd_reqs.sizeOk →
      s.inputs[iw]? = some q →
      ∃ s2, issueStep B IW L s iw = some s2) := by
  refine ⟨?_, ?_, ?_⟩
  · intro T ht v i ht2 h
    obtain ⟨hfind, _⟩ := HashTable.allocate_spec ht v i ht2 h
    exact findFreeIdx_spec ht.entries i hfind
  · intro T ht v hok hfull
    exact HashTable.allocate_of_not_full ht v hok hfull
  · intro B IW L s iw bank q hbank hok hq
    have hlen : iw % B < s.banks.length := (List.getElem?_eq_some.mp hbank).1
    by_cases hlock : bank.fence_lock = true
    · by_cases hempty : bank.pending_rd_reqs.empty = true
      · have hbank2 :
            (s.banks.set (iw % B) { bank with fence_lock := false })[iw % B]?
              = some { bank with fence_lock := false } :=
          List.getElem?_set_self hlen
        obtain ⟨s2, hs2⟩ := issueInput_total B IW L
          { s with
            banks := s.banks.set (iw % B) { bank with fence_lock := false },
            outputs := pushAt s.outputs iw (bank.fence_trace, 1) } iw
          { bank with fence_lock := false } q hbank2 hok hq
        refine ⟨s2, ?_⟩
        simp only [issueStep, hbank, hlock, hempty, if_true]
        exact hs2
      · refine ⟨s, ?_⟩
        simp at hempty
        simp [issueStep, hbank, hlock, hempty]
    · simp at hlock
      obtain ⟨s2, hs2⟩ := issueInput_total B IW L s iw bank q hbank hok hq
      refine ⟨s2, ?_⟩
      simp only [issueStep, hbank, hlock]
      simp only [Bool.false_eq_true, if_false]
      exact hs2

/-- Witness for C10 at concrete inputs: a fresh capacity-1 table allocates
slot 0, a non-full table always allocates, and the issue step of a one-lane
LSU with a LOAD at the head succeeds. -/
theorem allocate_least_free_witness :
    ((∃ w, emptyPT.entries[0]? = some (false, w)) ∧
      ∀ j, j < 0 → ∃ w, emptyPT.entries[j]? = some (true, w)) ∧
    (∃ i ht2, emptyPT.allocate ⟨tr0, [true]⟩ = some (i, ht2)) ∧
    (∃ s2, issueStep 1 1 1 { sBase with inputs := [[tr0]] } 0 = some s2) :=
  ⟨allocate_least_free.1 PendingEntry emptyPT ⟨tr0, [true]⟩ 0
      ⟨emptyPT.entries.set 0 (true, ⟨tr0, [true]⟩), 1⟩ rfl,
    allocate_least_free.2.1 PendingEntry emptyPT ⟨tr0, [true]⟩
      rfl (by decide),
    allocate_least_free.2.2 1 1 1 { sBase with inputs := [[tr0]] } 0
      { pending_rd_reqs := emptyPT, fence_lock := false, fence_trace := tr0 }
      [tr0] rfl rfl rfl⟩

/-! ### Frame lemmas for the LSU tick -/

theorem pushAt_length {α : Type} (qs : List (List α)) (i : Nat) (x : α) :
    (pushAt qs i x).length = qs.length := by
  simp [pushAt]

theorem pushAt_getElem?_ne {α : Type} (qs : List (List α)) (i j : Nat) (x : α)
    (h : j ≠ i) : (pushAt qs i x)[j]? = qs[j]? := by
  simp [pushAt, List.getElem?_set_ne (by omega : i ≠ j)]

theorem pushAt_getD_self {α : Type} (qs : List (List α)) (i : Nat) (x : α) :
    ∃ t, (pushAt qs i x).getD i [] = qs.getD i [] ++ t := by
  by_cases hi : i < qs.length
  · refine ⟨[x], ?_⟩
    simp [pushAt, List.getD_eq_getElem?_getD, List.getElem?_set_self hi]
  · refine ⟨[], ?_⟩
    unfold pushAt
    rw [List.set_eq_of_length_le (by omega), List.append_nil]

theorem pushAt_getD_self_of_lt {α : Type} (qs : List (List α)) (i : Nat) (x : α)
    (hi : i < qs.length) :
    (pushAt qs i x).getD i [] = qs.getD i [] ++ [x] := by
  simp [pushAt, List.getD_eq_getElem?_getD, List.getElem?_set_self hi]

theorem rspStep_frame (IW : Nat) (s : LsuState) (b : Nat) (orsp : Option LsuRsp)
    (s2 : LsuState) (h : rspStep IW s b orsp = some s2) :
    s2.inputs = s.inputs ∧ s2.reqs = s.reqs ∧
    s2.load_latency = s.load_latency ∧ s2.loads = s.loads ∧
    s2.stores = s.stores ∧ s2.queueFullLogs = s.queueFullLogs ∧
    s2.outputs.length = s.outputs.length ∧
    (∀ c, c ≠ b → s2.banks[c]? = s.banks[c]?) ∧
    (∀ (c : Nat), (s2.banks[c]?).map BankState.fence_lock
        = (s.banks[c]?).map BankState.fence_lock) ∧
    (∀ (c : Nat), (s2.banks[c]?).map BankState.fence_trace
        = (s.banks[c]?).map BankState.fence_trace) := by
  unfold rspStep at h
  split at h
  next =>
    cases h
    refine ⟨rfl, rfl, rfl, rfl, rfl, rfl, rfl, ?_, ?_, ?_⟩
    · intro c _
      rfl
    · intro c
      rfl
    · intro c
      rfl
  next rsp =>
    split at h
    next => cases h
    next bank hbank =>
      split at h
      next => cases h
      next entry hentry =>
        split at h
        next => cases h
        next =>
          simp only [] at h
          have hblen : b < s.banks.length := (List.getElem?_eq_some.mp hbank).1
          split at h
          next =>
            split at h
            next => cases h
            next ht2 hrel =>
              cases h
              refine ⟨rfl, rfl, rfl, rfl, rfl, rfl, pushAt_length _ _ _,
                ?_, ?_, ?_⟩
              · intro c hc
                exact List.getElem?_set_ne (by omega)
              · intro c
                by_cases hc : c = b
                · subst hc
                  rw [List.getElem?_set_self hblen, hbank]
                  rfl
                · rw [List.getElem?_set_ne (by omega)]
              · intro c
                by_cases hc : c = b
                · subst hc
                  rw [List.getElem?_set_self hblen, hbank]
                  rfl
                · rw [List.getElem?_set_ne (by omega)]
          next =>
            split at h
            next => cases h
            next ht2 hset =>
              cases h
              refine ⟨rfl, rfl, rfl, rfl, rfl, rfl, rfl, ?_, ?_, ?_⟩
              · intro c hc
                exact List.getElem?_set_ne (by omega)
              · intro c
                by_cases hc : c = b
                · subst hc
                  rw [List.getElem?_set_self hblen, hbank]
                  rfl
                · rw [List.getElem?_set_ne (by omega)]
              · intro c
                by_cases hc : c = b
                · subst hc
                  rw [List.getElem?_set_self hblen, hbank]
                  rfl
                · rw [List.getElem?_set_ne (by omega)]

theorem rspPhaseAux_frame (IW : Nat) :
    ∀ (rsps : List (Option LsuRsp)) (s : LsuState) (b : Nat) (s2 : LsuState),
      rspPhaseAux IW s b rsps = some s2 →
      s2.inputs = s.inputs ∧ s2.reqs = s.reqs ∧
      s2.load_latency = s.load_latency ∧ s2.loads = s.loads ∧
      s2.stores = s.stores ∧ s2.queueFullLogs = s.queueFullLogs ∧
      s2.outputs.length = s.outputs.length ∧
      (∀ (c : Nat), (s2.banks[c]?).map BankState.fence_lock
          = (s.banks[c]?).map BankState.fence_lock) ∧
      (∀ (c : Nat), (s2.banks[c]?).map BankState.fence_trace
          = (s.banks[c]?).map BankState.fence_trace) := by
  intro rsps
  induction rsps with
  | nil =>
    intro s b s2 h
    cases h
    refine ⟨rfl, rfl, rfl, rfl, rfl, rfl, rfl, ?_, ?_⟩
    · intro c
      rfl
    · intro c
      rfl
  | cons r rest ih =>
    intro s b s2 h
    unfold rspPhaseAux at h
    split at h
    next => cases h
    next smid hmid =>
      obtain ⟨h1, h2, h3, h4, h5, h6, h7, _, h8, h9⟩ :=
        rspStep_frame IW s b r smid hmid
      obtain ⟨g1, g2, g3, g4, g5, g6, g7, g8, g9⟩ := ih smid (b + 1) s2 h
      exact ⟨g1.trans h1, g2.trans h2, g3.trans h3, g4.trans h4,
        g5.trans h5, g6.trans h6, g7.trans h7,
        fun c => (g8 c).trans (h8 c), fun c => (g9 c).trans (h9 c)⟩

theorem getD_of_getElem?_eq {α : Type} {l1 l2 : List (List α)} {j : Nat}
    (h : l1[j]? = l2[j]?) : l1.getD j [] = l2.getD j [] := by
  rw [List.getD_eq_getElem?_getD, List.getD_eq_getElem?_getD, h]

/-! Branch equations for `issueInput` and `issueStep`. -/

theorem issueInput_eq_nobank (B IW L : Nat) (s : LsuState) (iw : Nat)
    (hbank : s.banks[iw % B]? = none) : issueInput B IW L s iw = none := by
  simp [issueInput, hbank]

theorem issueInput_eq_noinput (B IW L : Nat) (s : LsuState) (iw : Nat)
    (bank : BankState) (hbank : s.banks[iw % B]? = some bank)
    (hq : s.inputs[iw]? = none) : issueInput B IW L s iw = none := by
  simp [issueInput, hbank, hq]

theorem issueInput_eq_nil (B IW L : Nat) (s : LsuState) (iw : Nat)
    (bank : BankState) (hbank : s.banks[iw % B]? = some bank)
    (hq : s.inputs[iw]? = some []) : issueInput B IW L s iw = some s := by
  simp [issueInput, hbank, hq]

theorem issueInput_eq_fence (B IW L : Nat) (s : LsuState) (iw : Nat)
    (bank : BankState) (trace : Trace) (rest : List Trace)
    (hbank : s.banks[iw % B]? = some bank)
    (hq : s.inputs[iw]? = some (trace :: rest))
    (htype : trace.lsu_type = LsuType.FENCE) :
    issueInput B IW L s iw = some
      { s with
        banks := s.banks.set (iw % B)
          { bank with fence_trace := trace, fence_lock := true },
        inputs := s.inputs.set iw rest } := by
  simp [issueInput, hbank, hq, htype]

theorem issueInput_eq_store (B IW L : Nat) (s : LsuState) (iw : Nat)
    (bank : BankState) (trace : Trace) (rest : List Trace)
    (hbank : s.banks[iw % B]? = some bank)
    (hq : s.inputs[iw]? = some (trace :: rest))
    (htype : trace.lsu_type = LsuType.STORE) :
    issueInput B IW L s iw = some
      { s with
        reqs := pushAt s.reqs (iw % B)
          (mkLsuReq L { trace with logOnce := false } true 0),
        stores := s.stores
          + maskCount (mkLsuReq L { trace with logOnce := false } true 0).mask,
        outputs := pushAt s.outputs iw ({ trace with logOnce := false }, 1),
        inputs := s.inputs.set iw rest } := by
  simp [issueInput, hbank, hq, htype]

theorem issueInput_eq_load_full (B IW L : Nat) (s : LsuState) (iw : Nat)
    (bank : BankState) (trace : Trace) (rest : List Trace)
    (hbank : s.banks[iw % B]? = some bank)
    (hq : s.inputs[iw]? = some (trace :: rest))
    (htype : trace.lsu_type = LsuType.LOAD)
    (hfull : bank.pending_rd_reqs.full = true) :
    issueInput B IW L s iw = some
      { s with
        inputs := s.inputs.set iw ({ trace with logOnce := true } :: rest),
        queueFullLogs := s.queueFullLogs
          + (if trace.logOnce then 0 else 1) } := by
  simp [issueInput, hbank, hq, htype, hfull]

theorem issueInput_eq_load_alloc (B IW L : Nat) (s : LsuState) (iw : Nat)
    (bank : BankState) (trace : Trace) (rest : List Trace) (tag : Nat)
    (ht2 : HashTable PendingEntry)
    (hbank : s.banks[iw % B]? = some bank)
    (hq : s.inputs[iw]? = some (trace :: rest))
    (htype : trace.lsu_type = LsuType.LOAD)
    (hfull : bank.pending_rd_reqs.full = false)
    (halloc : bank.pending_rd_reqs.allocate
      { trace := { trace with logOnce := false }
        mask := activeMask L { trace with logOnce := false } }
      = some (tag, ht2)) :
    issueInput B IW L s iw = some
      { s with
        banks := s.banks.set (iw % B) { bank with pending_rd_reqs := ht2 },
        reqs := pushAt s.reqs (iw % B)
          (mkLsuReq L { trace with logOnce := false } false tag),
        loads := s.loads + maskCount (activeMask L { trace with logOnce := false }),
        pending_loads := s.pending_loads
          + maskCount (activeMask L { trace with logOnce := false }),
        inputs := s.inputs.set iw rest } := by
  have halloc2 := halloc
  rw [htype] at halloc2
  simp [issueInput, hbank, hq, htype, hfull, halloc2]

theorem issueStep_eq_nobank (B IW L : Nat) (s : LsuState) (iw : Nat)
    (hbank : s.banks[iw % B]? = none) : issueStep B IW L s iw = none := by
  simp [issueStep, hbank]

theorem issueStep_eq_locked_stall (B IW L : Nat) (s : LsuState) (iw : Nat)
    (bank : BankState) (hbank : s.banks[iw % B]? = some bank)
    (hlock : bank.fence_lock = true)
    (hne : bank.pending_rd_reqs.empty = false) :
    issueStep B IW L s iw = some s := by
  simp [issueStep, hbank, hlock, hne]

theorem issueStep_eq_unlock (B IW L : Nat) (s : LsuState) (iw : Nat)
    (bank : BankState) (hbank : s.banks[iw % B]? = some bank)
    (hlock : bank.fence_lock = true)
    (hemp : bank.pending_rd_reqs.empty = true) :
    issueStep B IW L s iw = issueInput B IW L
      { s with
        banks := s.banks.set (iw % B) { bank with fence_lock := false },
        outputs := pushAt s.outputs iw (bank.fence_trace, 1) } iw := by
  simp [issueStep, hbank, hlock, hemp]

theorem issueStep_eq_nolock (B IW L : Nat) (s : LsuState) (iw : Nat)
    (bank : BankState) (hbank : s.banks[iw % B]? = some bank)
    (hlock : bank.fence_lock = false) :
    issueStep B IW L s iw = issueInput B IW L s iw := by
  simp [issueStep, hbank, hlock]

theorem issueInput_frame (B IW L : Nat) (s : LsuState) (iw : Nat)
    (s2 : LsuState) (h : issueInput B IW L s iw = some s2) :
    (∀ (j : Nat), j ≠ iw → s2.inputs[j]? = s.inputs[j]?) ∧
    (∀ (j : Nat), j ≠ iw → s2.outputs[j]? = s.outputs[j]?) ∧
    (∀ (c : Nat), c ≠ iw % B → s2.banks[c]? = s.banks[c]?) ∧
    s2.load_latency = s.load_latency ∧
    s2.outputs.length = s.outputs.length ∧
    s2.inputs.length = s.inputs.length ∧
    (∀ (j : Nat), ∃ t, s2.outputs.getD j [] = s.outputs.getD j [] ++ t) := by
  cases hbank : s.banks[iw % B]? with
  | none => rw [issueInput_eq_nobank B IW L s iw hbank] at h; cases h
  | some bank =>
    cases hq : s.inputs[iw]? with
    | none => rw [issueInput_eq_noinput B IW L s iw bank hbank hq] at h; cases h
    | some q =>
      cases q with
      | nil =>
        rw [issueInput_eq_nil B IW L s iw bank hbank hq] at h
        cases h
        exact ⟨fun j _ => rfl, fun j _ => rfl, fun c _ => rfl, rfl, rfl, rfl,
          fun j => ⟨[], by simp⟩⟩
      | cons trace rest =>
        cases htype : trace.lsu_type with
        | FENCE =>
          rw [issueInput_eq_fence B IW L s iw bank trace rest hbank hq htype] at h
          cases h
          refine ⟨?_, fun j _ => rfl, ?_, rfl, rfl, by simp,
            fun j => ⟨[], by simp⟩⟩
          · intro j hj
            exact List.getElem?_set_ne (by omega)
          · intro c hc
            exact List.getElem?_set_ne (by omega)
        | STORE =>
          rw [issueInput_eq_store B IW L s iw bank trace rest hbank hq htype] at h
          cases h
          refine ⟨?_, ?_, fun c _ => rfl, rfl, pushAt_length _ _ _, by simp, ?_⟩
          · intro j hj
            exact List.getElem?_set_ne (by omega)
          · intro j hj
            exact pushAt_getElem?_ne _ _ _ _ hj
          · intro j
            by_cases hj : j = iw
            · subst hj
              exact pushAt_getD_self _ _ _
            · exact ⟨[], by
                rw [List.append_nil]
                exact getD_of_getElem?_eq (pushAt_getElem?_ne _ _ _ _ hj)⟩
        | LOAD =>
          cases hfull : bank.pending_rd_reqs.full with
          | true =>
            rw [issueInput_eq_load_full B IW L s iw bank trace rest hbank hq
              htype hfull] at h
            cases h
            refine ⟨?_, fun j _ => rfl, fun c _ => rfl, rfl, rfl, by simp,
              fun j => ⟨[], by simp⟩⟩
            intro j hj
            exact List.getElem?_set_ne (by omega)
          | false =>
            cases halloc : bank.pending_rd_reqs.allocate
                { trace := { trace with logOnce := false }
                  mask := activeMask L { trace with logOnce := false } } with
            | none =>
              exfalso
              have halloc2 := halloc
              rw [htype] at halloc2
              simp [issueInput, hbank, hq, htype, hfull, halloc2] at h
            | some pr =>
              obtain ⟨tag, ht2⟩ := pr
              rw [issueInput_eq_load_alloc B IW L s iw bank trace rest tag ht2
                hbank hq htype hfull halloc] at h
              cases h
              refine ⟨?_, fun j _ => rfl, ?_, rfl, rfl, by simp,
                fun j => ⟨[], by simp⟩⟩
              · intro j hj
                exact List.getElem?_set_ne (by omega)
              · intro c hc
                exact List.getElem?_set_ne (by omega)

theorem issueStep_frame (B IW L : Nat) (s : LsuState) (iw : Nat)
    (s2 : LsuState) (h : issueStep B IW L s iw = some s2) :
    (∀ (j : Nat), j ≠ iw → s2.inputs[j]? = s.inputs[j]?) ∧
    (∀ (j : Nat), j ≠ iw → s2.outputs[j]? = s.outputs[j]?) ∧
    (∀ (c : Nat), c ≠ iw % B → s2.banks[c]? = s.banks[c]?) ∧
    s2.load_latency = s.load_latency ∧
    s2.outputs.length = s.outputs.length ∧
    s2.inputs.length = s.inputs.length ∧
    (∀ (j : Nat), ∃ t, s2.outputs.getD j [] = s.outputs.getD j [] ++ t) := by
  cases hbank : s.banks[iw % B]? with
  | none => rw [issueStep_eq_nobank B IW L s iw hbank] at h; cases h
  | some bank =>
    cases hlock : bank.fence_lock with
    | false =>
      rw [issueStep_eq_nolock B IW L s iw bank hbank hlock] at h
      exact issueInput_frame B IW L s iw s2 h
    | true =>
      cases hemp : bank.pending_rd_reqs.empty with
      | false =>
        rw [issueStep_eq_locked_stall B IW L s iw bank hbank hlock hemp] at h
        cases h
        exact ⟨fun j _ => rfl, fun j _ => rfl, fun c _ => rfl, rfl, rfl, rfl,
          fun j => ⟨[], by simp⟩⟩
      | true =>
        rw [issueStep_eq_unlock B IW L s iw bank hbank hlock hemp] at h
        obtain ⟨g1, g2, g3, g4, g5, g6, g7⟩ := issueInput_frame _ _ _ _ _ _ h
        refine ⟨g1, ?_, ?_, g4, ?_, g6, ?_⟩
        · intro j hj
          rw [g2 j hj]
          exact pushAt_getElem?_ne _ _ _ _ hj
        · intro c hc
          rw [g3 c hc]
          exact List.getElem?_set_ne (by omega)
        · rw [g5]
          exact pushAt_length _ _ _
        · intro j
          obtain ⟨t1, ht1⟩ := g7 j
          by_cases hj : j = iw
          · subst hj
            obtain ⟨t0, ht0⟩ := pushAt_getD_self s.outputs j (bank.fence_trace, 1)
            exact ⟨t0 ++ t1, by rw [ht1, ht0, List.append_assoc]⟩
          · refine ⟨t1, ?_⟩
            rw [ht1, getD_of_getElem?_eq (pushAt_getElem?_ne _ _ _ _ hj)]

theorem issueLanes_frame (B IW L : Nat) :
    ∀ (ws : List Nat) (s s2 : LsuState), issueLanes B IW L s ws = some s2 →
      s2.load_latency = s.load_latency ∧
      s2.outputs.length = s.outputs.length ∧
      s2.inputs.length = s.inputs.length ∧
      (∀ (j : Nat), ∃ t, s2.outputs.getD j [] = s.outputs.getD j [] ++ t) ∧
      (∀ (j : Nat), (∀ w ∈ ws, j ≠ w) → s2.inputs[j]? = s.inputs[j]?) ∧
      (∀ (j : Nat), (∀ w ∈ ws, j ≠ w) → s2.outputs[j]? = s.outputs[j]?) ∧
      (∀ (c : Nat), (∀ w ∈ ws, c ≠ w % B) → s2.banks[c]? = s.banks[c]?) := by
  intro ws
  induction ws with
  | nil =>
    intro s s2 h
    cases h
    exact ⟨rfl, rfl, rfl, fun j => ⟨[], by simp⟩, fun j _ => rfl,
      fun j _ => rfl, fun c _ => rfl⟩
  | cons w rest ih =>
    intro s s2 h
    unfold issueLanes at h
    split at h
    next => cases h
    next smid hmid =>
      obtain ⟨gIn, gOut, gBk, gLat, gOlen, gIlen, gExt⟩ :=
        issueStep_frame B IW L s w smid hmid
      obtain ⟨f1, f2, f3, f4, f5, f6, f7⟩ := ih smid s2 h
      refine ⟨f1.trans gLat, f2.trans gOlen, f3.trans gIlen, ?_, ?_, ?_, ?_⟩
      · intro j
        obtain ⟨t0, ht0⟩ := gExt j
        obtain ⟨t1, ht1⟩ := f4 j
        exact ⟨t0 ++ t1, by rw [ht1, ht0, List.append_assoc]⟩
      · intro j hj
        rw [f5 j (fun x hx => hj x (List.mem_cons_of_mem _ hx)),
          gIn j (hj w (List.mem_cons_self _ _))]
      · intro j hj
        rw [f6 j (fun x hx => hj x (List.mem_cons_of_mem _ hx)),
          gOut j (hj w (List.mem_cons_self _ _))]
      · intro c hc
        rw [f7 c (fun x hx => hc x (List.mem_cons_of_mem _ hx)),
          gBk c (hc w (List.mem_cons_self _ _))]

/-! ### C9: load_latency accumulates pending_loads at the top of the tick -/

/-- C9: on every `LsuUnit::tick`, the perf counter `load_latency` grows by
exactly the value `pending_loads` held at the start of the tick — before any
response is absorbed and before any new load issues. -/
theorem lsu_load_latency (B IW L : Nat) (s : LsuState)
    (rsps : List (Option LsuRsp)) (s2 : LsuState)
    (h : LsuTick B IW L s rsps = some s2) :
    s2.load_latency = s.load_latency + s.pending_loads := by
  unfold LsuTick at h
  split at h
  next => cases h
  next s1 h1 =>
    have hs1 := (rspPhaseAux_frame IW rsps (statsPhase s) 0 s1 h1).2.2.1
    have hs2 := (issueLanes_frame B IW L (List.range IW) s1 s2 h).1
    rw [hs2, hs1]
    rfl

/-- Witness for C9: a tick of the one-bank LSU with one outstanding load and
no arriving response adds `pending_loads = 1` to `load_latency`. -/
theorem lsu_load_latency_witness :
    LsuTick 1 1 1 sPend [none] = some { sPend with load_latency := 1 } ∧
    ({ sPend with load_latency := 1 } : LsuState).load_latency
      = sPend.load_latency + sPend.pending_loads :=
  ⟨by decide, lsu_load_latency 1 1 1 sPend [none] _ (by decide)⟩

/-! ### C8: queue-full stall with debounced diagnostic -/

theorem HashTable.atIdx_allocate {T : Type} (ht : HashTable T) (v : T)
    (i : Nat) (ht2 : HashTable T) (h : ht.allocate v = some (i, ht2)) :
    ht2.atIdx i = some v := by
  obtain ⟨hfind, rfl⟩ := HashTable.allocate_spec ht v i ht2 h
  obtain ⟨⟨w, hw⟩, _⟩ := findFreeIdx_spec ht.entries i hfind
  have hlt : i < ht.entries.length := (List.getElem?_eq_some.mp hw).1
  rw [HashTable.atIdx_iff]
  exact List.getElem?_set_self hlt

theorem issueStepN_fix (B IW L : Nat) (s : LsuState) (iw : Nat)
    (hfix : issueStep B IW L s iw = some s) :
    ∀ (n : Nat), issueStepN B IW L s iw n = some s := by
  intro n
  induction n with
  | zero => rfl
  | succ m ih =>
    unfold issueStepN
    rw [hfix]
    exact ih

/-- C8: with a LOAD at the head of lane `iw` and the bank's pending table
full, the tick leaves the lane's observable state unchanged — the trace stays
at the head (only its `log_once` latch is set), nothing is pushed anywhere,
no slot is allocated and no counter changes — and the queue-full diagnostic
fires exactly once per stall episode (on the first stalled tick, when the
latch was still clear); when the load later issues, the latch is reset on the
trace retained in the pending table. -/
theorem lsu_queue_full_stall (B IW L : Nat) (s : LsuState) (iw : Nat)
    (bank : BankState) (trace : Trace) (rest : List Trace)
    (hbank : s.banks[iw % B]? = some bank) (hlock : bank.fence_lock = false)
    (hq : s.inputs[iw]? = some (trace :: rest))
    (htype : trace.lsu_type = LsuType.LOAD) :
    (bank.pending_rd_reqs.full = true →
      issueStep B IW L s iw = some
        { s with
          inputs := s.inputs.set iw ({ trace with logOnce := true } :: rest),
          queueFullLogs := s.queueFullLogs
            + (if trace.logOnce then 0 else 1) }) ∧
    (bank.pending_rd_reqs.full = true → trace.logOnce = false →
      ∀ (n : Nat), 1 ≤ n → issueStepN B IW L s iw n = some
        { s with
          inputs := s.inputs.set iw ({ trace with logOnce := true } :: rest),
          queueFullLogs := s.queueFullLogs + 1 }) ∧
    (∀ (tag : Nat) (ht2 : HashTable PendingEntry),
      bank.pending_rd_reqs.full = false →
      bank.pending_rd_reqs.allocate
        { trace := { trace with logOnce := false }
          mask := activeMask L { trace with logOnce := false } }
        = some (tag, ht2) →
      issueStep B IW L s iw = some
        { s with
          banks := s.banks.set (iw % B) { bank with pending_rd_reqs := ht2 },
          reqs := pushAt s.reqs (iw % B)
            (mkLsuReq L { trace with logOnce := false } false tag),
          loads := s.loads
            + maskCount (activeMask L { trace with logOnce := false }),
          pending_loads := s.pending_loads
            + maskCount (activeMask L { trace with logOnce := false }),
          inputs := s.inputs.set iw rest } ∧
      ht2.atIdx tag = some
        { trace := { trace with logOnce := false }
          mask := activeMask L { trace with logOnce := false } }) := by
  have hstep : bank.pending_rd_reqs.full = true →
      issueStep B IW L s iw = some
        { s with
          inputs := s.inputs.set iw ({ trace with logOnce := true } :: rest),
          queueFullLogs := s.queueFullLogs
            + (if trace.logOnce then 0 else 1) } := by
    intro hfull
    rw [issueStep_eq_nolock B IW L s iw bank hbank hlock,
      issueInput_eq_load_full B IW L s iw bank trace rest hbank hq htype hfull]
  refine ⟨hstep, ?_, ?_⟩
  · intro hfull hlog n hn
    have hiwlen : iw < s.inputs.length := (List.getElem?_eq_some.mp hq).1
    set s1 : LsuState :=
      { s with
        inputs := s.inputs.set iw ({ trace with logOnce := true } :: rest),
        queueFullLogs := s.queueFullLogs + 1 } with hs1
    have h1 : issueStep B IW L s iw = some s1 := by
      rw [hstep hfull, hs1]
      simp [hlog]
    have hq1 : s1.inputs[iw]? = some ({ trace with logOnce := true } :: rest) := by
      rw [hs1]
      exact List.getElem?_set_self hiwlen
    have hfix : issueStep B IW L s1 iw = some s1 := by
      rw [issueStep_eq_nolock B IW L s1 iw bank hbank hlock,
        issueInput_eq_load_full B IW L s1 iw bank
          { trace with logOnce := true } rest hbank hq1 htype hfull]
      rw [hs1]
      simp [List.set_set]
    obtain ⟨m, rfl⟩ : ∃ m, n = m + 1 := ⟨n - 1, by omega⟩
    unfold issueStepN
    rw [h1]
    exact issueStepN_fix B IW L s1 iw hfix m
  · intro tag ht2 hfull halloc
    refine ⟨?_, HashTable.atIdx_allocate _ _ _ _ halloc⟩
    rw [issueStep_eq_nolock B IW L s iw bank hbank hlock,
      issueInput_eq_load_alloc B IW L s iw bank trace rest tag ht2
        hbank hq htype hfull halloc]

/-- Witness for C8: a one-lane LSU with a full pending table and a LOAD at
the head stalls for two ticks, logging the diagnostic exactly once. -/
theorem lsu_queue_full_stall_witness :
    (fullPT.full = true ∧ tr0.logOnce = false) ∧
    issueStepN 1 1 1
      { sBase with banks := [⟨fullPT, false, tr0⟩], inputs := [[tr0]] } 0 2
      = some
        { { sBase with banks := [⟨fullPT, false, tr0⟩], inputs := [[tr0]] } with
          inputs := [[tr0]].set 0 ({ tr0 with logOnce := true } :: []),
          queueFullLogs :=
            ({ sBase with banks := [⟨fullPT, false, tr0⟩], inputs := [[tr0]] }
              : LsuState).queueFullLogs + 1 } :=
  ⟨⟨rfl, rfl⟩,
    (lsu_queue_full_stall 1 1 1
      { sBase with banks := [⟨fullPT, false, tr0⟩], inputs := [[tr0]] } 0
      ⟨fullPT, false, tr0⟩ tr0 [] rfl rfl rfl rfl).2.1 rfl rfl 2 (by omega)⟩

/-! ### C7: round-robin Mux fairness -/

theorem muxFindGrant_head {α : Type} (q : List (List α)) (k c : Nat)
    (x : α) (xs : List α) (hlen : q.length = 2 ^ k)
    (hqs : q.getD (c &&& (2 ^ k - 1)) [] = x :: xs) :
    muxFindGrant q (2 ^ k) 0 c (List.range (2 ^ k))
      = some (c &&& (2 ^ k - 1)) := by
  have hi0 : c &&& (2 ^ k - 1) < 2 ^ k := by
    rw [Nat.and_pow_two_sub_one_eq_mod]
    exact Nat.mod_lt _ (Nat.two_pow_pos k)
  obtain ⟨m, hm⟩ : ∃ m, 2 ^ k = m + 1 :=
    ⟨2 ^ k - 1, by have := Nat.two_pow_pos k; omega⟩
  rw [show List.range (2 ^ k) = 0 :: (List.range m).map Nat.succ by
    rw [hm, List.range_succ_eq_map]]
  have hmod : c % 2 ^ k < 2 ^ k := Nat.mod_lt _ (Nat.two_pow_pos k)
  rw [Nat.and_pow_two_sub_one_eq_mod] at hqs
  have hlt : c % 2 ^ k < q.length := by omega
  have hqs2 : q[c % 2 ^ k] = x :: xs := by
    rw [List.getD_eq_getElem?_getD, List.getElem?_eq_getElem hlt] at hqs
    simpa using hqs
  simp only [muxFindGrant]
  simp [hqs2, hlen, hmod]

theorem muxTick_rr_step {α : Type} (delay k c : Nat)
    (st : MuxState α) (x : α) (xs : List α) (hk : 1 ≤ k)
    (hI : st.inputsQ.length = 2 ^ k) (hO : st.outputsQ.length = 1)
    (hc : st.cursors = [c])
    (hqs : st.inputsQ.getD (c &&& (2 ^ k - 1)) [] = x :: xs) :
    muxGrant st = some (c &&& (2 ^ k - 1)) ∧
    muxTick true delay st =
      { inputsQ := st.inputsQ.set (c &&& (2 ^ k - 1)) xs
        outputsQ := pushAt st.outputsQ 0 (x, delay)
        cursors := [(c &&& (2 ^ k - 1)) + 1] } := by
  have hge2 : 2 ≤ 2 ^ k := by
    calc (2 : Nat) = 2 ^ 1 := rfl
    _ ≤ 2 ^ k := Nat.pow_le_pow_right (by omega) hk
  have hgrant := muxFindGrant_head st.inputsQ k c x xs hI hqs
  have hcget : st.cursors.getD 0 0 = c := by rw [hc]; rfl
  constructor
  · unfold muxGrant
    rw [hI, hcget]
    exact hgrant
  · unfold muxTick
    simp only []
    rw [if_neg (by rw [hI, hO]; simp; omega)]
    rw [hO, hI, show List.range 1 = [0] from rfl, List.foldl_cons,
      List.foldl_nil, Nat.div_one]
    unfold muxOutStep
    rw [hcget, hgrant]
    simp only [Nat.zero_mul, Nat.zero_add]
    rw [hqs]
    simp [hc]

theorem muxRun_succ_outer {α : Type} (rr : Bool) (delay : Nat) :
    ∀ (n : Nat) (st : MuxState α),
      muxRun rr delay (n + 1) st = muxTick rr delay (muxRun rr delay n st) := by
  intro n
  induction n with
  | zero => intro st; rfl
  | succ m ih =>
    intro st
    show muxRun rr delay (m + 1) (muxTick rr delay st) = _
    rw [ih (muxTick rr delay st)]
    rfl

theorem muxOutStep_priority_cursors {α : Type} (delay R : Nat)
    (st : MuxState α) (o : Nat) :
    (muxOutStep false delay R st o).cursors = st.cursors := by
  unfold muxOutStep
  split
  next => rfl
  next i _ =>
    simp only []
    split
    next => rfl
    next => simp

theorem muxFoldl_priority_cursors {α : Type} (delay R : Nat) :
    ∀ (l : List Nat) (st : MuxState α),
      (l.foldl (muxOutStep false delay R) st).cursors = st.cursors := by
  intro l
  induction l with
  | nil => intro st; rfl
  | cons o rest ih =>
    intro st
    rw [List.foldl_cons, ih (muxOutStep false delay R st o)]
    exact muxOutStep_priority_cursors _ _ _ _

theorem muxTick_priority_cursors {α : Type} (delay : Nat) (st : MuxState α) :
    (muxTick false delay st).cursors = st.cursors := by
  unfold muxTick
  simp only []
  split
  next => rfl
  next => exact muxFoldl_priority_cursors _ _ _ _

theorem muxRun_priority_cursors {α : Type} (delay : Nat) :
    ∀ (t : Nat) (st : MuxState α),
      (muxRun false delay t st).cursors = st.cursors := by
  intro t
  induction t with
  | zero => intro st; rfl
  | succ m ih =>
    intro st
    rw [muxRun_succ_outer false delay m st, muxTick_priority_cursors]
    exact ih st

theorem muxRun_rr_inv {α : Type} (delay k : Nat) (hk : 1 ≤ k) :
    ∀ (t n c : Nat) (st : MuxState α),
      st.inputsQ.length = 2 ^ k → st.outputsQ.length = 1 →
      st.cursors = [c] →
      (∀ j, j < 2 ^ k → n ≤ (st.inputsQ.getD j []).length) →
      t ≤ n →
      ∃ ct, (muxRun true delay t st).inputsQ.length = 2 ^ k ∧
        (muxRun true delay t st).outputsQ.length = 1 ∧
        (muxRun true delay t st).cursors = [ct] ∧
        ct % 2 ^ k = (c + t) % 2 ^ k ∧
        (∀ j, j < 2 ^ k →
          n - t ≤ ((muxRun true delay t st).inputsQ.getD j []).length) := by
  intro t
  induction t with
  | zero =>
    intro n c st hI hO hc hbl _
    refine ⟨c, ?_, ?_, ?_, rfl, ?_⟩
    · simpa only [muxRun] using hI
    · simpa only [muxRun] using hO
    · simpa only [muxRun] using hc
    · intro j hj
      have := hbl j hj
      simp only [muxRun]
      omega
  | succ m ih =>
    intro n c st hI hO hc hbl ht
    have hi0 : c &&& (2 ^ k - 1) < 2 ^ k := by
      rw [Nat.and_pow_two_sub_one_eq_mod]
      exact Nat.mod_lt _ (Nat.two_pow_pos k)
    have hlen0 : 1 ≤ (st.inputsQ.getD (c &&& (2 ^ k - 1)) []).length := by
      have := hbl _ hi0
      omega
    obtain ⟨x, xs, hqs⟩ : ∃ x xs,
        st.inputsQ.getD (c &&& (2 ^ k - 1)) [] = x :: xs := by
      cases hq : st.inputsQ.getD (c &&& (2 ^ k - 1)) [] with
      | nil => rw [hq] at hlen0; simp at hlen0
      | cons a as => exact ⟨a, as, rfl⟩
    obtain ⟨-, htick⟩ :=
      muxTick_rr_step delay k c st x xs hk hI hO hc hqs
    have hi0len : c &&& (2 ^ k - 1) < st.inputsQ.length := by omega
    have hstep : muxRun true delay (m + 1) st
        = muxRun true delay m (muxTick true delay st) := rfl
    rw [hstep, htick]
    have hxslen : (st.inputsQ.getD (c &&& (2 ^ k - 1)) []).length = xs.length + 1 := by
      rw [hqs]; rfl
    obtain ⟨ct, g1, g2, g3, g4, g5⟩ := ih (n - 1) ((c &&& (2 ^ k - 1)) + 1)
      { inputsQ := st.inputsQ.set (c &&& (2 ^ k - 1)) xs
        outputsQ := pushAt st.outputsQ 0 (x, delay)
        cursors := [(c &&& (2 ^ k - 1)) + 1] }
      (by simpa using hI)
      (by simpa using pushAt_length st.outputsQ 0 (x, delay) ▸ hO)
      rfl
      (by
        intro j hj
        by_cases hji : j = c &&& (2 ^ k - 1)
        · subst hji
          simp only [List.getD_eq_getElem?_getD, List.getElem?_set_self hi0len]
          have := hbl _ hj
          simp only [List.getD_eq_getElem?_getD] at hxslen this
          simp
          omega
        · simp only [List.getD_eq_getElem?_getD,
            List.getElem?_set_ne (fun he => hji he.symm)]
          have := hbl j hj
          simp only [List.getD_eq_getElem?_getD] at this
          omega)
      (by omega)
    refine ⟨ct, g1, g2, g3, ?_, fun j hj => by
      have := g5 j hj
      omega⟩
    rw [g4, Nat.and_pow_two_sub_one_eq_mod]
    have h1 : (c % 2 ^ k + 1 + m) % 2 ^ k = (c + 1 + m) % 2 ^ k := by
      rw [Nat.add_assoc, Nat.mod_add_mod, ← Nat.add_assoc]
    rw [h1]
    congr 1
    omega

/-- C7: a round-robin `Mux` with one output group of `R = I = 2^k` inputs,
starting from cursor 0 with all inputs continuously backlogged, grants input
`t mod I` on tick `t` (the scan starting at the cursor finds the cursor's own
input non-empty and advances the cursor to `grant+1`), hence over any window
of `I` consecutive ticks each input is granted exactly once; under the
Priority policy the cursor stays 0. -/
theorem mux_round_robin_fair {α : Type} (delay k n : Nat) (st : MuxState α)
    (hk : 1 ≤ k)
    (hI : st.inputsQ.length = 2 ^ k) (hO : st.outputsQ.length = 1)
    (hc : st.cursors = [0])
    (hbl : ∀ (j : Nat), j < 2 ^ k → n ≤ (st.inputsQ.getD j []).length) :
    (∀ (t : Nat), t < n → muxGrantAt true delay st t = some (t % 2 ^ k)) ∧
    (∀ (t j : Nat), t + 2 ^ k ≤ n → j < 2 ^ k →
      ∃! d, d < 2 ^ k ∧ muxGrantAt true delay st (t + d) = some j) ∧
    (∀ (t : Nat), (muxRun false delay t st).cursors = [0]) := by
  have hgr : ∀ (t : Nat), t < n →
      muxGrantAt true delay st t = some (t % 2 ^ k) := by
    intro t ht
    obtain ⟨ct, g1, g2, g3, g4, g5⟩ :=
      muxRun_rr_inv delay k hk t n 0 st hI hO hc hbl (by omega)
    have hi0 : ct &&& (2 ^ k - 1) < 2 ^ k := by
      rw [Nat.and_pow_two_sub_one_eq_mod]
      exact Nat.mod_lt _ (Nat.two_pow_pos k)
    have hlen0 : 1 ≤ ((muxRun true delay t st).inputsQ.getD
        (ct &&& (2 ^ k - 1)) []).length := by
      have := g5 _ hi0
      omega
    obtain ⟨x, xs, hqs⟩ : ∃ x xs,
        (muxRun true delay t st).inputsQ.getD (ct &&& (2 ^ k - 1)) []
          = x :: xs := by
      cases hq : (muxRun true delay t st).inputsQ.getD (ct &&& (2 ^ k - 1)) [] with
      | nil => rw [hq] at hlen0; simp at hlen0
      | cons a as => exact ⟨a, as, rfl⟩
    obtain ⟨hg, -⟩ := muxTick_rr_step delay k ct (muxRun true delay t st)
      x xs hk g1 g2 g3 hqs
    unfold muxGrantAt
    rw [hg, Nat.and_pow_two_sub_one_eq_mod, g4]
    simp
  refine ⟨hgr, ?_, fun t => (muxRun_priority_cursors delay t st).trans hc⟩
  intro t j htn hj
  have hmodchar : ∀ (d : Nat), d < 2 ^ k →
      (t + d) % 2 ^ k
        = (if t % 2 ^ k + d < 2 ^ k then t % 2 ^ k + d
           else t % 2 ^ k + d - 2 ^ k) := by
    intro d hd
    rw [Nat.add_mod, Nat.mod_eq_of_lt hd]
    by_cases hcase : t % 2 ^ k + d < 2 ^ k
    · rw [if_pos hcase, Nat.mod_eq_of_lt hcase]
    · rw [if_neg hcase]
      have hr : t % 2 ^ k < 2 ^ k := Nat.mod_lt _ (Nat.two_pow_pos k)
      rw [Nat.mod_eq_sub_mod (by omega), Nat.mod_eq_of_lt (by omega)]
  have hd0 : ∃ d, d < 2 ^ k ∧ (t + d) % 2 ^ k = j := by
    have hr : t % 2 ^ k < 2 ^ k := Nat.mod_lt _ (Nat.two_pow_pos k)
    by_cases hcase : t % 2 ^ k ≤ j
    · refine ⟨j - t % 2 ^ k, by omega, ?_⟩
      rw [hmodchar _ (by omega), if_pos (by omega)]
      omega
    · refine ⟨2 ^ k + j - t % 2 ^ k, by omega, ?_⟩
      rw [hmodchar _ (by omega), if_neg (by omega)]
      omega
  obtain ⟨d0, hd0lt, hd0eq⟩ := hd0
  refine ⟨d0, ⟨hd0lt, ?_⟩, ?_⟩
  · rw [hgr (t + d0) (by omega), hd0eq]
  · intro d1 ⟨hd1lt, hd1eq⟩
    rw [hgr (t + d1) (by omega)] at hd1eq
    have heq1 : (t + d1) % 2 ^ k = j := by
      injection hd1eq
    have hr : t % 2 ^ k < 2 ^ k := Nat.mod_lt _ (Nat.two_pow_pos k)
    rw [hmodchar _ hd1lt] at heq1
    rw [hmodchar _ hd0lt] at hd0eq
    split at heq1 <;> split at hd0eq <;> omega

/-- Witness for C7: a two-input round-robin mux with both inputs backlogged
for two ticks grants inputs 0 and 1 alternately; the Priority cursor
stays 0. -/
theorem mux_round_robin_fair_witness :
    (∀ (j : Nat), j < 2 ^ 1 →
      2 ≤ (([[10, 11], [20, 21]] : List (List Nat)).getD j []).length) ∧
    ((∀ (t : Nat), t < 2 →
        muxGrantAt true 1 (⟨[[10, 11], [20, 21]], [[]], [0]⟩ : MuxState Nat) t
          = some (t % 2 ^ 1)) ∧
      (∀ (t j : Nat), t + 2 ^ 1 ≤ 2 → j < 2 ^ 1 →
        ∃! d, d < 2 ^ 1 ∧
          muxGrantAt true 1 (⟨[[10, 11], [20, 21]], [[]], [0]⟩ : MuxState Nat)
            (t + d) = some j) ∧
      (∀ (t : Nat),
        (muxRun false 1 t
          (⟨[[10, 11], [20, 21]], [[]], [0]⟩ : MuxState Nat)).cursors = [0])) :=
  ⟨by decide,
    mux_round_robin_fair 1 1 2 ⟨[[10, 11], [20, 21]], [[]], [0]⟩
      (by decide) rfl rfl rfl (by decide)⟩

/-! ### C2: partial-response reassembly of one load -/

theorem HashTable.atIdx_mk_set_true {T : Type} (l : List (Bool × T))
    (n i : Nat) (v : T) (h : i < l.length) :
    (HashTable.mk (l.set i (true, v)) n).atIdx i = some v := by
  unfold HashTable.atIdx
  simp [List.getElem?_set_self h]

theorem HashTable.atIdx_mk_set_false {T : Type} (l : List (Bool × T))
    (n i : Nat) (v : T) (h : i < l.length) :
    (HashTable.mk (l.set i (false, v)) n).atIdx i = none := by
  unfold HashTable.atIdx
  simp [List.getElem?_set_self h]

theorem HashTable.contains_mk_set_false {T : Type} (l : List (Bool × T))
    (n i : Nat) (v : T) (h : i < l.length) :
    (HashTable.mk (l.set i (false, v)) n).contains i = false := by
  unfold HashTable.contains
  simp [List.getElem?_set_self h]

theorem HashTable.atIdx_mk_set_ne {T : Type} (l : List (Bool × T))
    (n m i j : Nat) (e : Bool × T) (hne : j ≠ i) :
    (HashTable.mk (l.set i e) n).atIdx j = (HashTable.mk l m).atIdx j := by
  unfold HashTable.atIdx
  rw [List.getElem?_set_ne (by omega)]

theorem rspStep_eq_release (IW : Nat) (s : LsuState) (b : Nat) (rsp : LsuRsp)
    (bank : BankState) (trace : Trace) (m : List Bool)
    (hbank : s.banks[b]? = some bank)
    (hat : bank.pending_rd_reqs.atIdx rsp.tag = some ⟨trace, m⟩)
    (hne : maskNone m = false)
    (hdone : maskNone (maskAnd m (maskNot rsp.mask)) = true) :
    rspStep IW s b (some rsp) = some
      { s with
        banks := s.banks.set b
          { bank with pending_rd_reqs :=
            ⟨bank.pending_rd_reqs.entries.set rsp.tag (false, ⟨trace, m⟩),
              bank.pending_rd_reqs.size - 1⟩ },
        outputs := pushAt s.outputs (trace.wid % IW) (trace, 1),
        pending_loads := s.pending_loads - maskCount rsp.mask } := by
  have hrel := HashTable.release_of_atIdx bank.pending_rd_reqs rsp.tag
    ⟨trace, m⟩ hat
  simp [rspStep, hbank, hat, hne, hdone, hrel]

theorem rspStep_eq_update (IW : Nat) (s : LsuState) (b : Nat) (rsp : LsuRsp)
    (bank : BankState) (trace : Trace) (m : List Bool)
    (hbank : s.banks[b]? = some bank)
    (hat : bank.pending_rd_reqs.atIdx rsp.tag = some ⟨trace, m⟩)
    (hne : maskNone m = false)
    (hdone : maskNone (maskAnd m (maskNot rsp.mask)) = false) :
    rspStep IW s b (some rsp) = some
      { s with
        banks := s.banks.set b
          { bank with pending_rd_reqs :=
            ⟨bank.pending_rd_reqs.entries.set rsp.tag
              (true, ⟨trace, maskAnd m (maskNot rsp.mask)⟩),
              bank.pending_rd_reqs.size⟩ },
        pending_loads := s.pending_loads - maskCount rsp.mask } := by
  have hset := HashTable.setEntry_of_atIdx bank.pending_rd_reqs rsp.tag
    ⟨trace, m⟩ ⟨trace, maskAnd m (maskNot rsp.mask)⟩ hat
  simp [rspStep, hbank, hat, hne, hdone, hset]

theorem absorbSeq_drains (IW : Nat) (tag : Nat) (trace : Trace) :
    ∀ (rs : List LsuRsp) (s : LsuState) (bank : BankState) (m : List Bool),
      s.banks[0]? = some bank →
      bank.pending_rd_reqs.atIdx tag = some ⟨trace, m⟩ →
      maskNone m = false →
      drains m rs → allTagged tag rs →
      ∃ s2 bank2,
        absorbSeq IW s rs = some s2 ∧
        s2.outputs = pushAt s.outputs (trace.wid % IW) (trace, 1) ∧
        s2.banks[0]? = some bank2 ∧
        bank2.pending_rd_reqs.atIdx tag = none ∧
        bank2.pending_rd_reqs.contains tag = false ∧
        bank2.pending_rd_reqs.size = bank.pending_rd_reqs.size - 1 ∧
        (∀ (u : Nat), u ≠ tag →
          bank2.pending_rd_reqs.atIdx u = bank.pending_rd_reqs.atIdx u) ∧
        s2.inputs = s.inputs ∧
        (∀ (pre suf : List LsuRsp), rs = pre ++ suf → suf ≠ [] →
          ∃ sp bankp, absorbSeq IW s pre = some sp ∧
            sp.outputs = s.outputs ∧
            sp.banks[0]? = some bankp ∧
            bankp.pending_rd_reqs.contains tag = true) := by
  intro rs
  induction rs with
  | nil =>
    intro s bank m hbank hat hm hdr htag
    exact absurd hdr (by simp [drains, hm])
  | cons r rest ih =>
    intro s bank m hbank hat hm hdr htag
    obtain ⟨hrne, hrsub, hrlen, hdrest⟩ := hdr
    have hrtag : r.tag = tag := htag r (List.mem_cons_self _ _)
    have hresttag : allTagged tag rest :=
      fun x hx => htag x (List.mem_cons_of_mem _ hx)
    have hat' : bank.pending_rd_reqs.atIdx r.tag = some ⟨trace, m⟩ := by
      rw [hrtag]; exact hat
    have hblen : 0 < s.banks.length := (List.getElem?_eq_some.mp hbank).1
    have htlen : tag < bank.pending_rd_reqs.entries.length := by
      have := (HashTable.atIdx_iff bank.pending_rd_reqs tag ⟨trace, m⟩).mp hat
      exact (List.getElem?_eq_some.mp this).1
    have htlen' : r.tag < bank.pending_rd_reqs.entries.length := by
      rw [hrtag]; exact htlen
    cases hdone : maskNone (maskAnd m (maskNot r.mask)) with
    | true =>
      have hrestnil : rest = [] := by
        cases rest with
        | nil => rfl
        | cons r2 rest2 =>
          obtain ⟨hr2ne, hr2sub, hr2len, -⟩ := hdrest
          have := maskSubset_of_none r2.mask (maskAnd m (maskNot r.mask))
            hr2len hr2sub hdone
          rw [this] at hr2ne
          cases hr2ne
      subst hrestnil
      have hstep := rspStep_eq_release IW s 0 r bank trace m hbank hat' hm hdone
      refine ⟨{ s with
          banks := s.banks.set 0
            { bank with pending_rd_reqs :=
              ⟨bank.pending_rd_reqs.entries.set r.tag (false, ⟨trace, m⟩),
                bank.pending_rd_reqs.size - 1⟩ },
          outputs := pushAt s.outputs (trace.wid % IW) (trace, 1),
          pending_loads := s.pending_loads - maskCount r.mask },
        { bank with pending_rd_reqs :=
            ⟨bank.pending_rd_reqs.entries.set r.tag (false, ⟨trace, m⟩),
              bank.pending_rd_reqs.size - 1⟩ },
        ?_, rfl, ?_, ?_, ?_, rfl, ?_, rfl, ?_⟩
      · show (match rspStep IW s 0 (some r) with
            | none => none
            | some s2 => absorbSeq IW s2 []) = some _
        rw [hstep]
        rfl
      · simp only []
        rw [List.getElem?_set_self hblen]
      · show (HashTable.mk (bank.pending_rd_reqs.entries.set r.tag
            (false, ⟨trace, m⟩)) (bank.pending_rd_reqs.size - 1)).atIdx tag
            = none
        rw [← hrtag]
        exact HashTable.atIdx_mk_set_false _ _ _ _ htlen'
      · show (HashTable.mk (bank.pending_rd_reqs.entries.set r.tag
            (false, ⟨trace, m⟩)) (bank.pending_rd_reqs.size - 1)).contains tag
            = false
        rw [← hrtag]
        exact HashTable.contains_mk_set_false _ _ _ _ htlen'
      · intro u hu
        show (HashTable.mk (bank.pending_rd_reqs.entries.set r.tag
            (false, ⟨trace, m⟩)) (bank.pending_rd_reqs.size - 1)).atIdx u = _
        exact HashTable.atIdx_mk_set_ne _ _ bank.pending_rd_reqs.size _ _ _
          (by omega)
      · intro pre suf heq hsuf
        cases pre with
        | nil =>
          exact ⟨s, bank, rfl, rfl, hbank,
            HashTable.contains_of_atIdx _ _ _ hat⟩
        | cons p pre2 =>
          exfalso
          have h2 : pre2 ++ suf = [] := by
            have := congrArg List.tail heq
            simpa using this
          rcases List.append_eq_nil.mp h2 with ⟨-, h3⟩
          exact hsuf h3
    | false =>
      have hstep := rspStep_eq_update IW s 0 r bank trace m hbank hat' hm hdone
      have habs : absorbSeq IW s (r :: rest) = absorbSeq IW
          { s with
            banks := s.banks.set 0
              { bank with pending_rd_reqs :=
                ⟨bank.pending_rd_reqs.entries.set r.tag
                  (true, ⟨trace, maskAnd m (maskNot r.mask)⟩),
                  bank.pending_rd_reqs.size⟩ },
            pending_loads := s.pending_loads - maskCount r.mask } rest := by
        show (match rspStep IW s 0 (some r) with
          | none => none
          | some s2 => absorbSeq IW s2 rest) = _
        rw [hstep]
      obtain ⟨s2, bank2, g1, g2, g3, g4, g5, g6, g7, g8, g9⟩ :=
        ih { s with
            banks := s.banks.set 0
              { bank with pending_rd_reqs :=
                ⟨bank.pending_rd_reqs.entries.set r.tag
                  (true, ⟨trace, maskAnd m (maskNot r.mask)⟩),
                  bank.pending_rd_reqs.size⟩ },
            pending_loads := s.pending_loads - maskCount r.mask }
          { bank with pending_rd_reqs :=
              ⟨bank.pending_rd_reqs.entries.set r.tag
                (true, ⟨trace, maskAnd m (maskNot r.mask)⟩),
                bank.pending_rd_reqs.size⟩ }
          (maskAnd m (maskNot r.mask))
          (by simp only []; rw [List.getElem?_set_self hblen])
          (by
            show (HashTable.mk (bank.pending_rd_reqs.entries.set r.tag
              (true, ⟨trace, maskAnd m (maskNot r.mask)⟩))
              (bank.pending_rd_reqs.size)).atIdx tag = _
            rw [← hrtag]
            exact HashTable.atIdx_mk_set_true _ _ _ _ htlen')
          hdone hdrest hresttag
      refine ⟨s2, bank2, ?_, ?_, g3, g4, g5, g6, ?_, g8, ?_⟩
      · rw [habs]
        exact g1
      · exact g2
      · intro u hu
        rw [g7 u hu]
        show (HashTable.mk (bank.pending_rd_reqs.entries.set r.tag
          (true, ⟨trace, maskAnd m (maskNot r.mask)⟩))
          (bank.pending_rd_reqs.size)).atIdx u = _
        exact HashTable.atIdx_mk_set_ne _ _ bank.pending_rd_reqs.size _ _ _
          (by omega)
      · intro pre suf heq hsuf
        cases pre with
        | nil =>
          exact ⟨s, bank, rfl, rfl, hbank,
            HashTable.contains_of_atIdx _ _ _ hat⟩
        | cons p pre2 =>
          have hpr : p = r := (List.cons_eq_cons.mp heq).1.symm
          have hrest2 : rest = pre2 ++ suf := (List.cons_eq_cons.mp heq).2
          obtain ⟨sp, bankp, k1, k2, k3, k4⟩ := g9 pre2 suf hrest2 hsuf
          refine ⟨sp, bankp, ?_, ?_, k3, k4⟩
          · show (match rspStep IW s 0 (some p) with
              | none => none
              | some s2 => absorbSeq IW s2 pre2) = some sp
            rw [hpr, hstep]
            exact k1
          · exact k2

/-- C2: a load whose responses arrive as partial `LsuRsp` packets — each
covering a non-empty subset of the still-outstanding lanes, cumulatively
covering the request's original mask, all carrying the request's tag — is
pushed to output port `trace.wid mod ISSUE_WIDTH` with delay 1 exactly once,
on the step at which `remaining_mask` becomes empty, and exactly that one
pending-table slot is released; no output push happens while
`remaining_mask` is still non-empty. -/
theorem lsu_load_reassembly (IW : Nat) (s : LsuState) (bank : BankState)
    (tag : Nat) (trace : Trace) (m : List Bool) (rs : List LsuRsp)
    (hbank : s.banks[0]? = some bank)
    (hslot : bank.pending_rd_reqs.atIdx tag = some ⟨trace, m⟩)
    (hm : maskNone m = false)
    (hdr : drains m rs) (htag : allTagged tag rs) :
    ∃ s2 bank2,
      absorbSeq IW s rs = some s2 ∧
      s2.outputs = pushAt s.outputs (trace.wid % IW) (trace, 1) ∧
      s2.banks[0]? = some bank2 ∧
      bank2.pending_rd_reqs.contains tag = false ∧
      bank2.pending_rd_reqs.size = bank.pending_rd_reqs.size - 1 ∧
      (∀ (u : Nat), u ≠ tag →
        bank2.pending_rd_reqs.atIdx u = bank.pending_rd_reqs.atIdx u) ∧
      (∀ (pre suf : List LsuRsp), rs = pre ++ suf → suf ≠ [] →
        ∃ sp bankp, absorbSeq IW s pre = some sp ∧
          sp.outputs = s.outputs ∧
          sp.banks[0]? = some bankp ∧
          bankp.pending_rd_reqs.contains tag = true) := by
  obtain ⟨s2, bank2, g1, g2, g3, g4, g5, g6, g7, g8, g9⟩ :=
    absorbSeq_drains IW tag trace rs s bank m hbank hslot hm hdr htag
  exact ⟨s2, bank2, g1, g2, g3, g5, g6, g7, g9⟩

/-- Witness for C2: a two-lane load with mask `11` whose responses arrive as
the two halves `10` then `01`, both with tag 0, produces exactly one output
push and releases exactly one slot; the proper prefix produces no push. -/
theorem lsu_load_reassembly_witness :
    (sPend2.banks[0]? = some ⟨fullPT2, false, tr0⟩ ∧
      fullPT2.atIdx 0 = some ⟨tr0, [true, true]⟩ ∧
      maskNone [true, true] = false) ∧
    (∃ s2 bank2,
      absorbSeq 1 sPend2
          [⟨[true, false], 0, 0, 1⟩, ⟨[false, true], 0, 0, 2⟩] = some s2 ∧
      s2.outputs = pushAt sPend2.outputs (tr0.wid % 1) (tr0, 1) ∧
      s2.banks[0]? = some bank2 ∧
      bank2.pending_rd_reqs.contains 0 = false ∧
      bank2.pending_rd_reqs.size = fullPT2.size - 1 ∧
      (∀ (u : Nat), u ≠ 0 →
        bank2.pending_rd_reqs.atIdx u = fullPT2.atIdx u) ∧
      (∀ (pre suf : List LsuRsp),
        ([⟨[true, false], 0, 0, 1⟩, ⟨[false, true], 0, 0, 2⟩] : List LsuRsp)
          = pre ++ suf → suf ≠ [] →
        ∃ sp bankp, absorbSeq 1 sPend2 pre = some sp ∧
          sp.outputs = sPend2.outputs ∧
          sp.banks[0]? = some bankp ∧
          bankp.pending_rd_reqs.contains 0 = true)) :=
  ⟨⟨rfl, rfl, rfl⟩,
    lsu_load_reassembly 1 sPend2 ⟨fullPT2, false, tr0⟩ 0 tr0 [true, true]
      [⟨[true, false], 0, 0, 1⟩, ⟨[false, true], 0, 0, 2⟩]
      rfl rfl rfl ⟨rfl, rfl, rfl, rfl, rfl, rfl, rfl⟩
      (by
        intro x hx
        simp at hx
        rcases hx with h | h <;> (subst h; rfl))⟩

/-! ### C3: the pending_loads counter invariant -/

theorem pendingSum_le (ht : HashTable PendingEntry) (i : Nat) (e : PendingEntry)
    (hat : ht.atIdx i = some e) : maskCount e.mask ≤ pendingSum ht := by
  have h := (HashTable.atIdx_iff ht i e).mp hat
  have := le_list_map_sum (fun x => if x.1 then maskCount x.2.mask else 0)
    ht.entries i (true, e) h
  simpa [pendingSum] using this

theorem pendingSum_set (l : List (Bool × PendingEntry)) (n n2 i : Nat)
    (y x : Bool × PendingEntry) (hy : l[i]? = some y) :
    pendingSum ⟨l.set i x, n⟩ + (if y.1 then maskCount y.2.mask else 0)
      = pendingSum ⟨l, n2⟩ + (if x.1 then maskCount x.2.mask else 0) := by
  unfold pendingSum
  exact list_map_sum_set _ l i x y hy

theorem totalPending_le (s : LsuState) (b : Nat) (bank : BankState)
    (hb : s.banks[b]? = some bank) :
    pendingSum bank.pending_rd_reqs ≤ totalPending s := by
  unfold totalPending
  exact le_list_map_sum (fun bk => pendingSum bk.pending_rd_reqs)
    s.banks b bank hb

theorem totalPending_banks_set (s s2 : LsuState) (b : Nat)
    (bank bk2 : BankState) (hb : s.banks[b]? = some bank)
    (hbanks : s2.banks = s.banks.set b bk2) :
    totalPending s2 + pendingSum bank.pending_rd_reqs
      = totalPending s + pendingSum bk2.pending_rd_reqs := by
  unfold totalPending
  rw [hbanks]
  exact list_map_sum_set _ s.banks b bk2 bank hb

theorem PendingInv_step_dec (s s2 : LsuState) (b : Nat) (bank : BankState)
    (ht2 : HashTable PendingEntry) (d : Nat)
    (hb : s.banks[b]? = some bank)
    (hbanks : s2.banks = s.banks.set b { bank with pending_rd_reqs := ht2 })
    (hpl : s2.pending_loads = s.pending_loads - d)
    (hsum : pendingSum ht2 + d = pendingSum bank.pending_rd_reqs)
    (hd : d ≤ pendingSum bank.pending_rd_reqs)
    (hinv : PendingInv s) : PendingInv s2 := by
  unfold PendingInv at hinv ⊢
  have htot2 : totalPending s2 + pendingSum bank.pending_rd_reqs
      = totalPending s + pendingSum ht2 :=
    totalPending_banks_set s s2 b bank { bank with pending_rd_reqs := ht2 }
      hb hbanks
  have hle1 := totalPending_le s b bank hb
  omega

theorem PendingInv_step_inc (s s2 : LsuState) (b : Nat) (bank : BankState)
    (ht2 : HashTable PendingEntry) (d : Nat)
    (hb : s.banks[b]? = some bank)
    (hbanks : s2.banks = s.banks.set b { bank with pending_rd_reqs := ht2 })
    (hpl : s2.pending_loads = s.pending_loads + d)
    (hsum : pendingSum ht2 = pendingSum bank.pending_rd_reqs + d)
    (hinv : PendingInv s) : PendingInv s2 := by
  unfold PendingInv at hinv ⊢
  have htot2 : totalPending s2 + pendingSum bank.pending_rd_reqs
      = totalPending s + pendingSum ht2 :=
    totalPending_banks_set s s2 b bank { bank with pending_rd_reqs := ht2 }
      hb hbanks
  have hle1 := totalPending_le s b bank hb
  omega

theorem PendingInv_banks_samePending (s s2 : LsuState) (b : Nat)
    (bank bk2 : BankState) (hb : s.banks[b]? = some bank)
    (hbanks : s2.banks = s.banks.set b bk2)
    (hpend : pendingSum bk2.pending_rd_reqs = pendingSum bank.pending_rd_reqs)
    (hpl : s2.pending_loads = s.pending_loads)
    (hinv : PendingInv s) : PendingInv s2 := by
  unfold PendingInv at hinv ⊢
  have htot2 := totalPending_banks_set s s2 b bank bk2 hb hbanks
  have hle1 := totalPending_le s b bank hb
  omega

theorem PendingInv_same (s s2 : LsuState) (hbanks : s2.banks = s.banks)
    (hpl : s2.pending_loads = s.pending_loads)
    (hinv : PendingInv s) : PendingInv s2 := by
  unfold PendingInv at hinv ⊢
  unfold totalPending
  rw [hbanks, hpl]
  exact hinv

theorem rspStep_PendingInv (IW : Nat) (s : LsuState) (b : Nat)
    (orsp : Option LsuRsp) (s2 : LsuState)
    (hok : ∀ (rsp : LsuRsp), orsp = some rsp → RspOk s b rsp)
    (hinv : PendingInv s) (h : rspStep IW s b orsp = some s2) :
    PendingInv s2 := by
  cases orsp with
  | none =>
    simp only [rspStep] at h
    cases h
    exact hinv
  | some rsp =>
    obtain ⟨bank, entry, hbank, hat, hsub, hlen⟩ := hok rsp rfl
    have hentry := (HashTable.atIdx_iff _ _ _).mp hat
    cases hmnone : maskNone entry.mask with
    | true =>
      exfalso
      simp [rspStep, hbank, hat, hmnone] at h
    | false =>
      have hcnt := maskCount_diff rsp.mask entry.mask hlen hsub
      have hle2 : maskCount entry.mask ≤ pendingSum bank.pending_rd_reqs :=
        pendingSum_le _ _ _ hat
      cases hdone : maskNone (maskAnd entry.mask (maskNot rsp.mask)) with
      | true =>
        rw [rspStep_eq_release IW s b rsp bank entry.trace entry.mask
          hbank hat hmnone hdone] at h
        cases h
        have hzero : maskCount (maskAnd entry.mask (maskNot rsp.mask)) = 0 :=
          maskCount_of_none _ hdone
        have hsum1 : pendingSum
            ⟨bank.pending_rd_reqs.entries.set rsp.tag
              (false, ⟨entry.trace, entry.mask⟩),
              bank.pending_rd_reqs.size - 1⟩
            + maskCount entry.mask = pendingSum bank.pending_rd_reqs := by
          have := pendingSum_set bank.pending_rd_reqs.entries
            (bank.pending_rd_reqs.size - 1) bank.pending_rd_reqs.size rsp.tag
            (true, entry) (false, ⟨entry.trace, entry.mask⟩) hentry
          simpa using this
        exact PendingInv_step_dec s _ b bank _ (maskCount rsp.mask) hbank rfl rfl
          (by omega) (by omega) hinv
      | false =>
        rw [rspStep_eq_update IW s b rsp bank entry.trace entry.mask
          hbank hat hmnone hdone] at h
        cases h
        have hsum1 : pendingSum
            ⟨bank.pending_rd_reqs.entries.set rsp.tag
              (true, ⟨entry.trace, maskAnd entry.mask (maskNot rsp.mask)⟩),
              bank.pending_rd_reqs.size⟩
            + maskCount entry.mask = pendingSum bank.pending_rd_reqs
              + maskCount (maskAnd entry.mask (maskNot rsp.mask)) := by
          have := pendingSum_set bank.pending_rd_reqs.entries
            bank.pending_rd_reqs.size bank.pending_rd_reqs.size rsp.tag
            (true, entry)
            (true, ⟨entry.trace, maskAnd entry.mask (maskNot rsp.mask)⟩) hentry
          simpa using this
        exact PendingInv_step_dec s _ b bank _ (maskCount rsp.mask) hbank rfl rfl
          (by omega) (by omega) hinv

theorem rspPhaseAux_PendingInv (IW : Nat) :
    ∀ (rsps : List (Option LsuRsp)) (b : Nat) (s s2 : LsuState),
      (∀ (idx : Nat) (rsp : LsuRsp), rsps[idx]? = some (some rsp) →
        RspOk s (b + idx) rsp) →
      PendingInv s → rspPhaseAux IW s b rsps = some s2 → PendingInv s2 := by
  intro rsps
  induction rsps with
  | nil =>
    intro b s s2 _ hinv h
    cases h
    exact hinv
  | cons r rest ih =>
    intro b s s2 hok hinv h
    unfold rspPhaseAux at h
    split at h
    next => cases h
    next smid hmid =>
      have hinv2 := rspStep_PendingInv IW s b r smid
        (fun rsp hr => by
          have := hok 0 rsp (by rw [hr]; simp)
          simpa using this)
        hinv hmid
      refine ih (b + 1) smid s2 ?_ hinv2 h
      intro idx rsp hidx
      have hokk := hok (idx + 1) rsp (by simpa using hidx)
      obtain ⟨bank, entry, hbank, hat, hsub, hlen⟩ := hokk
      have hframe := (rspStep_frame IW s b r smid hmid).2.2.2.2.2.2.2.1
      refine ⟨bank, entry, ?_, hat, hsub, hlen⟩
      rw [hframe (b + 1 + idx) (by omega)]
      rw [show b + 1 + idx = b + (idx + 1) by omega]
      exact hbank

theorem issueInput_PendingInv (B IW L : Nat) (s : LsuState) (iw : Nat)
    (s2 : LsuState) (h : issueInput B IW L s iw = some s2)
    (hinv : PendingInv s) : PendingInv s2 := by
  cases hbank : s.banks[iw % B]? with
  | none => rw [issueInput_eq_nobank B IW L s iw hbank] at h; cases h
  | some bank =>
    cases hq : s.inputs[iw]? with
    | none => rw [issueInput_eq_noinput B IW L s iw bank hbank hq] at h; cases h
    | some q =>
      cases q with
      | nil =>
        rw [issueInput_eq_nil B IW L s iw bank hbank hq] at h
        cases h
        exact hinv
      | cons trace rest =>
        cases htype : trace.lsu_type with
        | FENCE =>
          rw [issueInput_eq_fence B IW L s iw bank trace rest hbank hq htype] at h
          cases h
          exact PendingInv_banks_samePending s _ (iw % B) bank _ hbank rfl rfl
            rfl hinv
        | STORE =>
          rw [issueInput_eq_store B IW L s iw bank trace rest hbank hq htype] at h
          cases h
          exact PendingInv_same s _ rfl rfl hinv
        | LOAD =>
          cases hfull : bank.pending_rd_reqs.full with
          | true =>
            rw [issueInput_eq_load_full B IW L s iw bank trace rest hbank hq
              htype hfull] at h
            cases h
            exact PendingInv_same s _ rfl rfl hinv
          | false =>
            cases halloc : bank.pending_rd_reqs.allocate
                { trace := { trace with logOnce := false }
                  mask := activeMask L { trace with logOnce := false } } with
            | none =>
              exfalso
              have halloc2 := halloc
              rw [htype] at halloc2
              simp [issueInput, hbank, hq, htype, hfull, halloc2] at h
            | some pr =>
              obtain ⟨tagi, ht2⟩ := pr
              rw [issueInput_eq_load_alloc B IW L s iw bank trace rest tagi ht2
                hbank hq htype hfull halloc] at h
              cases h
              obtain ⟨hfind, hht2⟩ := HashTable.allocate_spec _ _ _ _ halloc
              subst hht2
              obtain ⟨⟨w, hfree⟩, -⟩ := findFreeIdx_spec _ _ hfind
              have hsum1 : pendingSum
                  ⟨bank.pending_rd_reqs.entries.set tagi
                    (true, { trace := { trace with logOnce := false }
                             mask := activeMask L { trace with logOnce := false } }),
                    bank.pending_rd_reqs.size + 1⟩
                  = pendingSum bank.pending_rd_reqs
                    + maskCount (activeMask L { trace with logOnce := false }) := by
                have := pendingSum_set bank.pending_rd_reqs.entries
                  (bank.pending_rd_reqs.size + 1) bank.pending_rd_reqs.size tagi
                  (false, w)
                  (true, { trace := { trace with logOnce := false }
                           mask := activeMask L { trace with logOnce := false } })
                  hfree
                simpa using this
              exact PendingInv_step_inc s _ (iw % B) bank _
                (maskCount (activeMask L { trace with logOnce := false }))
                hbank rfl rfl hsum1 hinv

theorem issueStep_PendingInv (B IW L : Nat) (s : LsuState) (iw : Nat)
    (s2 : LsuState) (h : issueStep B IW L s iw = some s2)
    (hinv : PendingInv s) : PendingInv s2 := by
  cases hbank : s.banks[iw % B]? with
  | none => rw [issueStep_eq_nobank B IW L s iw hbank] at h; cases h
  | some bank =>
    cases hlock : bank.fence_lock with
    | false =>
      rw [issueStep_eq_nolock B IW L s iw bank hbank hlock] at h
      exact issueInput_PendingInv B IW L s iw s2 h hinv
    | true =>
      cases hemp : bank.pending_rd_reqs.empty with
      | false =>
        rw [issueStep_eq_locked_stall B IW L s iw bank hbank hlock hemp] at h
        cases h
        exact hinv
      | true =>
        rw [issueStep_eq_unlock B IW L s iw bank hbank hlock hemp] at h
        have hmid : PendingInv
            { s with
              banks := s.banks.set (iw % B) { bank with fence_lock := false },
              outputs := pushAt s.outputs iw (bank.fence_trace, 1) } :=
          PendingInv_banks_samePending s _ (iw % B) bank _ hbank rfl rfl rfl hinv
        exact issueInput_PendingInv B IW L _ iw s2 h hmid

theorem issueLanes_PendingInv (B IW L : Nat) :
    ∀ (ws : List Nat) (s s2 : LsuState),
      issueLanes B IW L s ws = some s2 → PendingInv s → PendingInv s2 := by
  intro ws
  induction ws with
  | nil =>
    intro s s2 h hinv
    cases h
    exact hinv
  | cons w rest ih =>
    intro s s2 h hinv
    unfold issueLanes at h
    split at h
    next => cases h
    next smid hmid =>
      exact ih smid s2 h (issueStep_PendingInv B IW L s w smid hmid hinv)

/-- C3: after every full `LsuUnit::tick`, `pending_loads` equals the sum over
all banks and all allocated pending-table slots of the popcount of each
slot's `remaining_mask` — given that the invariant held at the start of the
tick and every arriving response's mask is a subset of its request's
still-outstanding lanes. -/
theorem lsu_pending_loads_inv (B IW L : Nat) (s : LsuState)
    (rsps : List (Option LsuRsp)) (s2 : LsuState)
    (hval : ValidRsps s rsps) (hinv : PendingInv s)
    (h : LsuTick B IW L s rsps = some s2) : PendingInv s2 := by
  unfold LsuTick at h
  split at h
  next => cases h
  next s1 h1 =>
    have hinv1 : PendingInv s1 := by
      refine rspPhaseAux_PendingInv IW rsps 0 (statsPhase s) s1 ?_ hinv h1
      intro idx rsp hidx
      rw [Nat.zero_add]
      exact hval idx rsp hidx
    exact issueLanes_PendingInv B IW L (List.range IW) s1 s2 h hinv1

/-- Witness for C3: absorbing the completing response of the outstanding
single-lane load preserves the invariant (`pending_loads` drops to 0 as the
last slot empties). -/
theorem lsu_pending_loads_inv_witness :
    (ValidRsps sPend [some ⟨[true], 0, 0, 3⟩] ∧ PendingInv sPend) ∧
    PendingInv
      { sPend with
        banks := [⟨⟨[(false, ⟨tr0, [true]⟩)], 0⟩, false, tr0⟩],
        outputs := [[(tr0, 1)]],
        pending_loads := 0,
        load_latency := 1 } :=
  ⟨⟨fun b rsp hb => by
      match b, hb with
      | 0, hb =>
        have hr : (⟨[true], 0, 0, 3⟩ : LsuRsp) = rsp := by
          simpa using hb
        subst hr
        exact ⟨⟨fullPT, false, tr0⟩, ⟨tr0, [true]⟩, rfl, rfl, rfl, rfl⟩,
    rfl⟩,
    lsu_pending_loads_inv 1 1 1 sPend [some ⟨[true], 0, 0, 3⟩] _
      (fun b rsp hb => by
        match b, hb with
        | 0, hb =>
          have hr : (⟨[true], 0, 0, 3⟩ : LsuRsp) = rsp := by
            simpa using hb
          subst hr
          exact ⟨⟨fullPT, false, tr0⟩, ⟨tr0, [true]⟩, rfl, rfl, rfl, rfl⟩)
      rfl (by decide)⟩

/-! ### C1: fence ordering -/

theorem issueLanes_append (B IW L : Nat) :
    ∀ (l1 l2 : List Nat) (s s2 : LsuState),
      issueLanes B IW L s (l1 ++ l2) = some s2 →
      ∃ smid, issueLanes B IW L s l1 = some smid ∧
        issueLanes B IW L smid l2 = some s2 := by
  intro l1
  induction l1 with
  | nil =>
    intro l2 s s2 h
    exact ⟨s, rfl, h⟩
  | cons w rest ih =>
    intro l2 s s2 h
    rw [List.cons_append] at h
    unfold issueLanes at h
    split at h
    next => cases h
    next smid hmid =>
      obtain ⟨smid2, h1, h2⟩ := ih l2 smid s2 h
      refine ⟨smid2, ?_, h2⟩
      unfold issueLanes
      rw [hmid]
      exact h1

theorem issueLanes_locked (B IW L : Nat) :
    ∀ (ws : List Nat) (s s2 : LsuState) (b : Nat) (bank : BankState),
      s.banks[b]? = some bank → bank.fence_lock = true →
      bank.pending_rd_reqs.empty = false →
      issueLanes B IW L s ws = some s2 →
      s2.banks[b]? = some bank ∧
      (∀ (j : Nat), j % B = b → s2.inputs[j]? = s.inputs[j]?) ∧
      (∀ (j : Nat), j % B = b → s2.outputs[j]? = s.outputs[j]?) := by
  intro ws
  induction ws with
  | nil =>
    intro s s2 b bank hbank _ _ h
    cases h
    exact ⟨hbank, fun j _ => rfl, fun j _ => rfl⟩
  | cons w rest ih =>
    intro s s2 b bank hbank hlock hne h
    unfold issueLanes at h
    split at h
    next => cases h
    next smid hmid =>
      by_cases hwb : w % B = b
      · have hbank' : s.banks[w % B]? = some bank := by rw [hwb]; exact hbank
        rw [issueStep_eq_locked_stall B IW L s w bank hbank' hlock hne] at hmid
        cases hmid
        exact ih s s2 b bank hbank hlock hne h
      · obtain ⟨gIn, gOut, gBk, -, -, -, -⟩ :=
          issueStep_frame B IW L s w smid hmid
        have hbank2 : smid.banks[b]? = some bank := by
          rw [gBk b (fun he => hwb he.symm)]
          exact hbank
        obtain ⟨f1, f2, f3⟩ := ih smid s2 b bank hbank2 hlock hne h
        refine ⟨f1, ?_, ?_⟩
        · intro j hj
          have hjw : j ≠ w := by
            intro he
            subst he
            exact hwb hj
          rw [f2 j hj, gIn j hjw]
        · intro j hj
          have hjw : j ≠ w := by
            intro he
            subst he
            exact hwb hj
          rw [f3 j hj, gOut j hjw]

/-- C1: fence ordering in the LSU.  (i) Consuming a FENCE trace from a bank's
input latches `fence_trace` and sets `fence_lock`.  (ii) While a bank is
fence-locked, a lane stalls (the step is a no-op) as long as
`pending_rd_reqs` is non-empty, and the lock clears only when
`pending_rd_reqs.empty()`, at which point the fence trace is pushed to the
lane's output with delay 1.  (iii) Over a whole `LsuUnit::tick` on a
fence-locked bank: if the pending table is still non-empty after the
response phase, no trace is taken from the bank's lanes' inputs, nothing new
appears on those lanes' outputs beyond the response-phase pushes of pre-fence
loads, and the lock persists; if the pending table has drained, the latched
fence trace is pushed (with delay 1) to the bank's lane output. -/
theorem lsu_fence_ordering :
    (∀ (B IW L : Nat) (s : LsuState) (iw : Nat) (bank : BankState)
        (trace : Trace) (rest : List Trace),
      s.banks[iw % B]? = some bank → bank.fence_lock = false →
      s.inputs[iw]? = some (trace :: rest) →
      trace.lsu_type = LsuType.FENCE →
      issueStep B IW L s iw = some
        { s with
          banks := s.banks.set (iw % B)
            { bank with fence_trace := trace, fence_lock := true },
          inputs := s.inputs.set iw rest }) ∧
    (∀ (B IW L : Nat) (s : LsuState) (iw : Nat) (bank : BankState),
      s.banks[iw % B]? = some bank → bank.fence_lock = true →
      (bank.pending_rd_reqs.empty = false →
        issueStep B IW L s iw = some s) ∧
      (bank.pending_rd_reqs.empty = true →
        issueStep B IW L s iw = issueInput B IW L
          { s with
            banks := s.banks.set (iw % B) { bank with fence_lock := false },
            outputs := pushAt s.outputs iw (bank.fence_trace, 1) } iw)) ∧
    (∀ (B IW L : Nat) (s : LsuState) (rsps : List (Option LsuRsp))
        (s2 : LsuState) (b : Nat) (bank : BankState),
      b < B → B ≤ IW → s.outputs.length = IW →
      s.banks[b]? = some bank → bank.fence_lock = true →
      LsuTick B IW L s rsps = some s2 →
      ∃ s1 bank1, rspPhaseAux IW (statsPhase s) 0 rsps = some s1 ∧
        s1.inputs = s.inputs ∧
        s1.banks[b]? = some bank1 ∧ bank1.fence_lock = true ∧
        bank1.fence_trace = bank.fence_trace ∧
        (bank1.pending_rd_reqs.empty = false →
          s2.banks[b]? = some bank1 ∧
          (∀ (j : Nat), j % B = b → s2.inputs[j]? = s.inputs[j]?) ∧
          (∀ (j : Nat), j % B = b → s2.outputs[j]? = s1.outputs[j]?)) ∧
        (bank1.pending_rd_reqs.empty = true →
          ∃ tail, s2.outputs.getD b []
            = s1.outputs.getD b [] ++ (bank.fence_trace, 1) :: tail)) := by
  refine ⟨?_, ?_, ?_⟩
  · intro B IW L s iw bank trace rest hbank hlock hq htype
    rw [issueStep_eq_nolock B IW L s iw bank hbank hlock,
      issueInput_eq_fence B IW L s iw bank trace rest hbank hq htype]
  · intro B IW L s iw bank hbank hlock
    exact ⟨fun hne => issueStep_eq_locked_stall B IW L s iw bank hbank hlock hne,
      fun hemp => issueStep_eq_unlock B IW L s iw bank hbank hlock hemp⟩
  · intro B IW L s rsps s2 b bank hbB hBIW hlen hbank hlock h
    unfold LsuTick at h
    split at h
    next => cases h
    next s1 h1 =>
      obtain ⟨p1, p2, p3, p4, p5, p6, p7, p8, p9⟩ :=
        rspPhaseAux_frame IW rsps (statsPhase s) 0 s1 h1
      have hbanks0 : (statsPhase s).banks[b]? = some bank := hbank
      have hlockmap := p8 b
      rw [hbanks0] at hlockmap
      have htracemap := p9 b
      rw [hbanks0] at htracemap
      obtain ⟨bank1, hbank1, hlock1, htrace1⟩ :
          ∃ bank1, s1.banks[b]? = some bank1 ∧ bank1.fence_lock = true ∧
            bank1.fence_trace = bank.fence_trace := by
        cases hb1 : s1.banks[b]? with
        | none => rw [hb1] at hlockmap; cases hlockmap
        | some x =>
          rw [hb1] at hlockmap htracemap
          refine ⟨x, rfl, ?_, ?_⟩
          · have : some x.fence_lock = some bank.fence_lock := hlockmap
            rw [hlock] at this
            injection this
          · injection htracemap
      refine ⟨s1, bank1, h1, p1, hbank1, hlock1, htrace1, ?_, ?_⟩
      · intro hne
        obtain ⟨f1, f2, f3⟩ := issueLanes_locked B IW L (List.range IW)
          s1 s2 b bank1 hbank1 hlock1 hne h
        refine ⟨f1, ?_, f3⟩
        intro j hj
        rw [f2 j hj, p1]
        rfl
      · intro hemp
        have hlen1 : s1.outputs.length = IW := by rw [p7]; exact hlen
        have hrange : List.range IW
            = List.range b ++ (b :: List.range' (b + 1) (IW - b - 1)) := by
          rw [List.range_eq_range', List.range_eq_range']
          conv_lhs => rw [show IW = (IW - b) + b by omega,
            ← List.range'_append_1 0 b (IW - b)]
          congr 1
          conv_lhs => rw [show IW - b = (IW - b - 1) + 1 by omega,
            List.range'_succ]
          simp
        rw [hrange] at h
        obtain ⟨sMid, hMid, hRest⟩ := issueLanes_append B IW L _ _ s1 s2 h
        obtain ⟨-, qOlen, -, q4, q5, q6, q7⟩ :=
          issueLanes_frame B IW L (List.range b) s1 sMid hMid
        have hMidBank : sMid.banks[b]? = some bank1 := by
          rw [q7 b ?_]
          · exact hbank1
          · intro w hw
            have hwb : w < b := List.mem_range.mp hw
            rw [Nat.mod_eq_of_lt (by omega)]
            omega
        have hMidOut : sMid.outputs[b]? = s1.outputs[b]? := by
          refine q6 b ?_
          intro w hw
          have hwb : w < b := List.mem_range.mp hw
          omega
        have hMidLen : sMid.outputs.length = IW := by rw [qOlen]; exact hlen1
        unfold issueLanes at hRest
        split at hRest
        next => cases hRest
        next sAfter hStepb =>
          have hMidBankMod : sMid.banks[b % B]? = some bank1 := by
            rw [Nat.mod_eq_of_lt hbB]
            exact hMidBank
          rw [issueStep_eq_unlock B IW L sMid b bank1 hMidBankMod hlock1
            hemp] at hStepb
          obtain ⟨-, -, -, -, -, -, w7⟩ :=
            issueInput_frame B IW L _ b sAfter hStepb
          obtain ⟨t1, ht1⟩ := w7 b
          have hpush : (pushAt sMid.outputs b (bank1.fence_trace, 1)).getD b []
              = sMid.outputs.getD b [] ++ [(bank1.fence_trace, 1)] :=
            pushAt_getD_self_of_lt sMid.outputs b (bank1.fence_trace, 1)
              (by omega)
          obtain ⟨-, -, -, v4, -, -, -⟩ :=
            issueLanes_frame B IW L (List.range' (b + 1) (IW - b - 1))
              sAfter s2 hRest
          obtain ⟨t2, ht2⟩ := v4 b
          refine ⟨t1 ++ t2, ?_⟩
          rw [ht2, ht1]
          have hgd : sAfter.outputs.getD b []
              = (pushAt sMid.outputs b (bank1.fence_trace, 1)).getD b []
                ++ t1 := ht1
          rw [hpush, getD_of_getElem?_eq hMidOut, htrace1]
          simp

/-- Witness for C1: (i) consuming a FENCE on the one-lane LSU latches the
lock; (ii) the locked bank stalls while a load is outstanding; (iii) a full
tick of the locked bank with the load still outstanding leaves the lane's
input and output untouched with the lock held. -/
theorem lsu_fence_ordering_witness :
    (issueStep 1 1 1
        { sBase with inputs := [[{ tr0 with lsu_type := LsuType.FENCE }]] } 0
      = some
        { { sBase with inputs := [[{ tr0 with lsu_type := LsuType.FENCE }]] } with
          banks := [⟨emptyPT, true, { tr0 with lsu_type := LsuType.FENCE }⟩],
          inputs := [[]] }) ∧
    (issueStep 1 1 1
        { sPend with banks := [⟨fullPT, true, tr0⟩], inputs := [[tr0]] } 0
      = some { sPend with banks := [⟨fullPT, true, tr0⟩], inputs := [[tr0]] }) ∧
    (∃ s1 bank1,
      rspPhaseAux 1 (statsPhase
          { sPend with banks := [⟨fullPT, true, tr0⟩], inputs := [[tr0]] })
          0 [none] = some s1 ∧
      s1.inputs = ({ sPend with banks := [⟨fullPT, true, tr0⟩], inputs := [[tr0]] } : LsuState).inputs ∧
      s1.banks[0]? = some bank1 ∧ bank1.fence_lock = true ∧
      bank1.fence_trace = (⟨fullPT, true, tr0⟩ : BankState).fence_trace ∧
      (bank1.pending_rd_reqs.empty = false →
        (statsPhase { sPend with banks := [⟨fullPT, true, tr0⟩], inputs := [[tr0]] }).banks[0]? = some bank1 ∧
        (∀ (j : Nat), j % 1 = 0 →
          (statsPhase { sPend with banks := [⟨fullPT, true, tr0⟩], inputs := [[tr0]] }).inputs[j]?
            = ({ sPend with banks := [⟨fullPT, true, tr0⟩], inputs := [[tr0]] } : LsuState).inputs[j]?) ∧
        (∀ (j : Nat), j % 1 = 0 →
          (statsPhase { sPend with banks := [⟨fullPT, true, tr0⟩], inputs := [[tr0]] }).outputs[j]?
            = s1.outputs[j]?)) ∧
      (bank1.pending_rd_reqs.empty = true →
        ∃ tail, (statsPhase { sPend with banks := [⟨fullPT, true, tr0⟩], inputs := [[tr0]] }).outputs.getD 0 []
          = s1.outputs.getD 0 []
            ++ ((⟨fullPT, true, tr0⟩ : BankState).fence_trace, 1) :: tail)) :=
  ⟨(lsu_fence_ordering.1 1 1 1
      { sBase with inputs := [[{ tr0 with lsu_type := LsuType.FENCE }]] } 0
      ⟨emptyPT, false, tr0⟩ { tr0 with lsu_type := LsuType.FENCE } []
      rfl rfl rfl rfl).trans (by decide),
    (lsu_fence_ordering.2.1 1 1 1
      { sPend with banks := [⟨fullPT, true, tr0⟩], inputs := [[tr0]] } 0
      ⟨fullPT, true, tr0⟩ rfl rfl).1 rfl,
    lsu_fence_ordering.2.2 1 1 1
      { sPend with banks := [⟨fullPT, true, tr0⟩], inputs := [[tr0]] } [none]
      (statsPhase { sPend with banks := [⟨fullPT, true, tr0⟩], inputs := [[tr0]] })
      0 ⟨fullPT, true, tr0⟩ (by omega) (by omega) rfl rfl rfl (by decide)⟩

end Vortex
